import Mathlib

/-!
# fpgaregs: a shallow embedding of `main.cpp`

`fpgaregs` reads `#define NAME VALUE` lines from a C header, keeps the 32-bit
ones in a `std::map`, optionally filters and renames them through a second
`std::map` read from a configuration file, and prints one shell assignment
per surviving register.

Modelling conventions.

* A `char*` that points into a NUL-terminated buffer is a `CStr`, the list of
  the characters from the pointer onwards. Reading past the end of the list
  reads the terminating NUL, and a character with code 0 inside the list is a
  NUL as well.
* A `std::string` is a Lean `String`. Every `std::string` of the program is
  built from a NUL-terminated text, so it holds no NUL and `c_str()` is the
  identity.
* A `std::map<std::string, V>` is the list of its entries in iteration order,
  which is ascending key order; `operator<` of `std::string` is `str_lt`.
* `uint64_t` and `uint32_t` values are natural numbers, reduced explicitly
  where the source converts or masks.
* The standard output stream is the list of the texts written by the
  successive `printf` calls.
-/

namespace Fpgaregs

/-! ## Characters and C strings -/

/-- A pointer into a NUL-terminated character buffer. -/
abbrev CStr := List Char

/-- The character under the pointer, `*in`; the terminating NUL at the end. -/
def cur (p : CStr) : Char := p.headD (Char.ofNat 0)

/-- Pointer increment, `in + 1`. -/
def next (p : CStr) : CStr := p.tail

/-- The text of a buffer as a C string: the characters before the first NUL. -/
def c_string (buf : CStr) : CStr := buf.takeWhile (fun c => c.toNat ≠ 0)

/-! ## `std::string` comparison and `std::map` -/

/-- Lexicographic comparison of character sequences by character code, the
order of `std::char_traits<char>::compare` followed by the length test. -/
def lex_lt : List Char → List Char → Bool
  | _, [] => false
  | [], _ :: _ => true
  | a :: as, b :: bs =>
    if a.toNat < b.toNat then true
    else if b.toNat < a.toNat then false
    else lex_lt as bs

/-- The `operator<` of `std::string`. -/
def str_lt (a b : String) : Bool := lex_lt a.data b.data

/-- A `std::map<std::string, V>`, as the list of its entries in iteration
order. -/
abbrev StdMap (V : Type) := List (String × V)

/-- The invariant of a `std::map`: the keys are strictly ascending. -/
def StdMap.WF {V : Type} (m : StdMap V) : Prop :=
  List.Pairwise (fun a b => str_lt a.1 b.1 = true) m

/-- The keys of a map, in iteration order. -/
def StdMap.keys {V : Type} (m : StdMap V) : List String := m.map Prod.fst

/-- The value found by `std::map::find`: the value of the entry whose key is
neither less nor greater than `k`, `none` for `end()`. -/
def StdMap.find {V : Type} : StdMap V → String → Option V
  | [], _ => none
  | (k1, v1) :: rest, k =>
    if str_lt k1 k then StdMap.find rest k
    else if str_lt k k1 then none
    else some v1

/-- The statement `m[k] = v`: the entry of `k` is created at its place in key
order when it is missing, and its value is overwritten. -/
def StdMap.assign {V : Type} : StdMap V → String → V → StdMap V
  | [], k, v => [(k, v)]
  | (k1, v1) :: rest, k, v =>
    if str_lt k1 k then (k1, v1) :: StdMap.assign rest k v
    else if str_lt k k1 then (k, v) :: (k1, v1) :: rest
    else (k, v) :: rest

/-! ## The C library: `strtoull`, `printf`, `fgets` -/

/-- The largest `unsigned long long`. -/
def ULLONG_MAX : Nat := 2 ^ 64 - 1

/-- The `isspace` class of the C locale. -/
def isspace (c : Char) : Bool := c.toNat = 32 || (9 ≤ c.toNat && c.toNat ≤ 13)

/-- The value of a character as a digit, for the digits and the letters of
either case; `none` for every other character. -/
def digit_value (c : Char) : Option Nat :=
  if 48 ≤ c.toNat ∧ c.toNat ≤ 57 then some (c.toNat - 48)
  else if 97 ≤ c.toNat ∧ c.toNat ≤ 122 then some (c.toNat - 97 + 10)
  else if 65 ≤ c.toNat ∧ c.toNat ≤ 90 then some (c.toNat - 65 + 10)
  else none

/-- Whether `c` is a digit of the given base. -/
def is_digit_of (base : Nat) (c : Char) : Bool :=
  match digit_value c with
  | some d => decide (d < base)
  | none => false

/-- The digit loop of `strtoull`: the mathematical value of the longest run
of digits of `base` at the start of the text, added to `acc`. -/
def scan_digits (base : Nat) : CStr → Nat → Nat
  | [], acc => acc
  | c :: cs, acc =>
    match digit_value c with
    | some d => if d < base then scan_digits base cs (acc * base + d) else acc
    | none => acc

/-- The text after the optional sign of a number. -/
def after_sign (s : CStr) : CStr :=
  if cur s = Char.ofNat 45 ∨ cur s = Char.ofNat 43 then next s else s

/-- The call `strtoull(nptr, nullptr, 0)` of the C library: white space is
skipped, an optional sign is read, the base is 16 after `0x` or `0X` followed
by a hexadecimal digit, 8 after another `0` and 10 otherwise; the longest run
of digits is converted, a value that does not fit gives `ULLONG_MAX`, a minus
sign negates the value in the unsigned type, and a text without digits gives
0. -/
def strtoull (nptr : CStr) : Nat :=
  let s := nptr.dropWhile isspace
  let neg : Bool := cur s = Char.ofNat 45
  let s := after_sign s
  let hex : Bool := cur s = Char.ofNat 48
    && (cur (next s) = Char.ofNat 120 || cur (next s) = Char.ofNat 88)
    && is_digit_of 16 (cur (next (next s)))
  let v :=
    if hex then scan_digits 16 (next (next s)) 0
    else if cur s = Char.ofNat 48 then scan_digits 8 s 0
    else scan_digits 10 s 0
  if ULLONG_MAX < v then ULLONG_MAX
  else if neg then (2 ^ 64 - v) % 2 ^ 64
  else v

/-- The digit characters of the `X` conversion of `printf`. -/
def upper_digits : List Char := "0123456789ABCDEF".data

/-- One hexadecimal digit, in upper case. -/
def hex_digit (d : Nat) : Char := upper_digits.getD d (Char.ofNat 48)

/-- The digit loop of the `X` conversion: the digits of `n` are produced from
the least significant one and put in front of `acc`; an `unsigned long` has
at most 16 of them. -/
def hex_loop : Nat → Nat → List Char → List Char
  | 0, _, acc => acc
  | fuel + 1, n, acc =>
    if n / 16 = 0 then hex_digit (n % 16) :: acc
    else hex_loop fuel (n / 16) (hex_digit (n % 16) :: acc)

/-- The conversion `%lX` of `printf`, applied to an `unsigned long` of 64
bits. -/
def fmt_lX (value : Nat) : String := String.mk (hex_loop 16 (value % 2 ^ 64) [])

/-- The characters stored by one `fgets` call that may store `room`
characters, and the rest of the stream: reading stops after a newline. -/
def fgets_chars : Nat → CStr → CStr × CStr
  | 0, s => ([], s)
  | _ + 1, [] => ([], [])
  | room + 1, c :: cs =>
    if c.toNat = 10 then ([c], cs)
    else ((fgets_chars room cs).1.cons c, (fgets_chars room cs).2)

/-- The call `fgets(line, size, ifile)`: `none` at the end of the stream,
otherwise the characters stored in the buffer and the rest of the stream. -/
def fgets (size : Nat) (stream : CStr) : Option (CStr × CStr) :=
  if stream = [] then none else some (fgets_chars (size - 1) stream)

/-- The lines seen by a loop `while (fgets(line, sizeof(line), ifile))` over
a buffer of 10000 characters, each as the C string the buffer holds. The
fuel bounds the number of calls. -/
def fgets_loop : Nat → CStr → List CStr
  | 0, _ => []
  | fuel + 1, stream =>
    match fgets 10000 stream with
    | none => []
    | some (buf, rest) => c_string buf :: fgets_loop fuel rest

/-- The lines of a whole file: every `fgets` call consumes a character, so
as many calls as the file has characters reach its end. -/
def file_lines (content : CStr) : List CStr := fgets_loop content.length content

/-! ## The tokenizer -/

/-- The end-of-line characters: line feed, carriage return and NUL. -/
def is_end (c : Char) : Bool := c.toNat = 10 || c.toNat = 13 || c.toNat = 0

/-- The double-quote character. -/
def dquote : Char := Char.ofNat 34

/-- Modelled from the spec: the scanning loop of `CTokenizer::parse`, whose
source file `tokenizer.h` is missing. The state is `none` between tokens and
`some (quoted, acc)` inside a token, `acc` holding its characters in reverse.
Scanning stops at the end of the line; before it, tokens are split on runs
of white space, the characters of the `isspace` class (space, tab, vertical
tab and form feed), and a double-quoted span is one token with the quotes
stripped. -/
def CTokenizer.scan : CStr → Option (Bool × List Char) → List String
  | [], none => []
  | [], some (_, acc) => [String.mk acc.reverse]
  | c :: cs, none =>
    if is_end c then []
    else if isspace c then CTokenizer.scan cs none
    else if c = dquote then CTokenizer.scan cs (some (true, []))
    else CTokenizer.scan cs (some (false, [c]))
  | c :: cs, some (quoted, acc) =>
    if is_end c then [String.mk acc.reverse]
    else if quoted then
      if c = dquote then String.mk acc.reverse :: CTokenizer.scan cs none
      else CTokenizer.scan cs (some (true, c :: acc))
    else if isspace c then String.mk acc.reverse :: CTokenizer.scan cs none
    else CTokenizer.scan cs (some (false, c :: acc))

/-- Modelled from the spec: `CTokenizer::parse` of the missing `tokenizer.h`,
the sequence of the tokens of a line. -/
def CTokenizer.parse (p : CStr) : List String := CTokenizer.scan p none

/-! ## The program -/

/-- The global variables of the program. -/
structure Globals where
  /-- The name of the input data file. -/
  filename : String
  /-- The (optional) name of the config file. -/
  config_file : String
  /-- Maps a register name to its 32-bit address. -/
  symbol : StdMap Nat
  /-- Which symbols to output, and what they are translated to. -/
  translate : StdMap String

/-- The globals at program start. -/
def Globals.init : Globals :=
  { filename := "fpga_reg.h", config_file := "", symbol := [], translate := [] }

/-- How a function of the program ends: it returns a result, or it stops the
process with `exit(1)` after a message on standard error, or its behaviour is
undefined. -/
inductive Outcome (α : Type) where
  | ok (result : α)
  | exit1 (stderr : String)
  | undefined
  deriving DecidableEq

/-- The loop `while (*in == 32 || *in == 9) ++in;`. -/
def skip_blanks : CStr → CStr
  | [] => []
  | c :: cs => if c.toNat = 32 ∨ c.toNat = 9 then skip_blanks cs else c :: cs

/-- The test `*in == 10 || *in == 13 || *in == 0`. -/
def at_end_of_line (p : CStr) : Bool :=
  (cur p).toNat = 10 || (cur p).toNat = 13 || (cur p).toNat = 0

/-- The test `in[0] == '/' && in[1] == '/'`. -/
def at_comment (p : CStr) : Bool :=
  cur p = Char.ofNat 47 && cur (next p) = Char.ofNat 47

/-- The body of the `while` loop of `read_file`, for one line of the header:
the symbol table after the line. -/
def read_file_line (parse : CStr → List String) (symbol : StdMap Nat) (line : CStr) :
    StdMap Nat :=
  let p := skip_blanks line
  if at_end_of_line p then symbol
  else if at_comment p then symbol
  else
    match parse p with
    | [t0, register_name, t2] =>
      if t0 ≠ "#define" then symbol
      else
        let register_addr := strtoull t2.data
        if register_addr >>> 32 ≠ 0 then symbol
        else symbol.assign register_name ((register_addr &&& 0xFFFFFFFF) % 2 ^ 32)
    | _ => symbol

/-- The function `read_file` on an opened file: the loop over its lines. -/
def read_file_lines (parse : CStr → List String) (symbol : StdMap Nat) (lines : List CStr) :
    StdMap Nat :=
  lines.foldl (read_file_line parse) symbol

/-- The function `read_file`; `fs` gives the content of the files that can be
opened. -/
def read_file (parse : CStr → List String) (fs : String → Option CStr) (fn : String)
    (symbol : StdMap Nat) : Outcome (StdMap Nat) :=
  match fs fn with
  | none => .exit1 ("fpgaregs: can't open '" ++ fn ++ "'\n")
  | some content => .ok (read_file_lines parse symbol (file_lines content))

/-- The effect of `strchr(line, '=')` followed by `*in = ' '`: the first `=`
before the end of the string becomes a space. -/
def replace_first_eq : CStr → CStr
  | [] => []
  | c :: cs =>
    if c.toNat = 0 then c :: cs
    else if c = Char.ofNat 61 then Char.ofNat 32 :: cs
    else c :: replace_first_eq cs

/-- The body of the `while` loop of `read_config_file`, for one line: the
translation table after the line, or `none` when the line makes the program
index the token vector out of range. -/
def read_config_line (parse : CStr → List String) (translate : StdMap String) (line : CStr) :
    Option (StdMap String) :=
  let p := skip_blanks (replace_first_eq line)
  if at_end_of_line p then some translate
  else if at_comment p then some translate
  else
    match parse p with
    | [t0] => some (translate.assign t0 t0)
    | t0 :: t1 :: _ => some (translate.assign t0 t1)
    | [] => none

/-- The loop of `read_config_file` over the lines of the opened file. -/
def read_config_lines (parse : CStr → List String) :
    StdMap String → List CStr → Option (StdMap String)
  | translate, [] => some translate
  | translate, line :: rest =>
    match read_config_line parse translate line with
    | none => none
    | some t => read_config_lines parse t rest

/-- The function `read_config_file`. -/
def read_config_file (parse : CStr → List String) (fs : String → Option CStr) (fn : String)
    (translate : StdMap String) : Outcome (StdMap String) :=
  match fs fn with
  | none => .exit1 ("fpgaregs: can't open '" ++ fn ++ "'\n")
  | some content =>
    match read_config_lines parse translate (file_lines content) with
    | none => .undefined
    | some t => .ok t

/-- The call `printf("%s=$((0x%lX))\n", name.c_str(), value)`. -/
def printf_symbol (name : String) (value : Nat) : String :=
  name ++ "=$((0x" ++ fmt_lX value ++ "))\n"

/-- The `for` loop of `display_output` over the entries of `symbol`. -/
def display_loop (have_config : Bool) (translate : StdMap String) :
    List (String × Nat) → List String
  | [] => []
  | (name, value) :: rest =>
    if have_config then
      match translate.find name with
      | none => display_loop have_config translate rest
      | some translation => printf_symbol translation value :: display_loop have_config translate rest
    else printf_symbol name value :: display_loop have_config translate rest

/-- The function `display_output`: the texts it prints. -/
def display_output (g : Globals) : List String :=
  display_loop (decide (g.config_file ≠ "")) g.translate g.symbol

/-- The function `parse_command_line`, on the arguments after `argv[0]`: the
globals after it, or the message of the failure. -/
def parse_command_line : List String → Globals → Outcome Globals
  | [], g => .ok g
  | [token], g =>
    if token.data.head? = some (Char.ofNat 45) then
      .exit1 ("invalid argument " ++ token ++ "\n")
    else .ok { g with filename := token }
  | token :: value :: rest, g =>
    if token = "-config" then parse_command_line rest { g with config_file := value }
    else if token.data.head? = some (Char.ofNat 45) then
      .exit1 ("invalid argument " ++ token ++ "\n")
    else parse_command_line (value :: rest) { g with filename := token }

/-- The statements of `main` after the command line is parsed. -/
def run (parse : CStr → List String) (fs : String → Option CStr) (g : Globals) :
    Outcome (List String) :=
  match (if g.config_file ≠ "" then read_config_file parse fs g.config_file g.translate
         else .ok g.translate) with
  | .exit1 e => .exit1 e
  | .undefined => .undefined
  | .ok translate =>
    match read_file parse fs g.filename g.symbol with
    | .exit1 e => .exit1 e
    | .undefined => .undefined
    | .ok symbol => .ok (display_output { g with translate := translate, symbol := symbol })

/-- The function `main`: what the program prints, or how it stops. -/
def main (parse : CStr → List String) (fs : String → Option CStr) (argv : List String) :
    Outcome (List String) :=
  match parse_command_line argv Globals.init with
  | .exit1 e => .exit1 e
  | .undefined => .undefined
  | .ok g => run parse fs g

/-! ## Path conditions and notions used to state the properties -/

/-- The condition under which `read_file` reaches its statement
`string register_name = token[1]` on a line: the line is neither blank nor a
comment, and its tokens are exactly `#define`, `N` and `L`. -/
def Recognized (parse : CStr → List String) (line : CStr) (N L : String) : Prop :=
  at_end_of_line (skip_blanks line) = false ∧ at_comment (skip_blanks line) = false ∧
    parse (skip_blanks line) = ["#define", N, L]

/-- A text without a leading number under the base-0 rules of C: after the
white space and one optional sign it does not start with a decimal digit. -/
def NoLeadingNumber (L : String) : Prop :=
  ¬ (48 ≤ (cur (after_sign (L.data.dropWhile isspace))).toNat ∧
     (cur (after_sign (L.data.dropWhile isspace))).toNat ≤ 57)

/-- Whether a character is one of `0`..`9`, `A`..`F`. -/
def is_upper_hex (c : Char) : Bool :=
  (48 ≤ c.toNat && c.toNat ≤ 57) || (65 ≤ c.toNat && c.toNat ≤ 70)

/-- The number that a sequence of upper-case hexadecimal digits denotes. -/
def upper_hex_value (ds : List Char) : Nat :=
  ds.foldl (fun acc c => acc * 16 + (if c.toNat ≤ 57 then c.toNat - 48 else c.toNat - 55)) 0

/-- The digits `ds` are the upper-case hexadecimal rendering of `a` without
leading zeros: at least one digit, all of them hexadecimal, denoting `a`, the
single digit `0` for zero and no `0` in front otherwise. -/
def UpperHexOf (ds : List Char) (a : Nat) : Prop :=
  ds ≠ [] ∧ (∀ c ∈ ds, is_upper_hex c = true) ∧ upper_hex_value ds = a ∧
    (a = 0 → ds = [Char.ofNat 48]) ∧ (a ≠ 0 → ds.head? ≠ some (Char.ofNat 48))

/-- A character that a name of the configuration file may hold: no NUL, no
white space, no `=` and no quote of either kind. -/
def is_plain (c : Char) : Bool :=
  c.toNat ≠ 0 && !isspace c && c.toNat ≠ 61 && c.toNat ≠ 34 && c.toNat ≠ 39

/-- An argument of the command line by the role the left-to-right scan gives
it: a `-config` together with the following argument that it consumes as its
value, or an argument that stands for itself. -/
inductive Arg where
  | config (value : String)
  | plain (token : String)
  deriving DecidableEq

/-- The roles of the arguments, scanning from the left: a `-config` that has
a following argument consumes it; every other argument, a `-config` in the
last place included, stands for itself. -/
def classify : List String → List Arg
  | [] => []
  | [token] => [Arg.plain token]
  | token :: value :: rest =>
    if token = "-config" then Arg.config value :: classify rest
    else Arg.plain token :: classify (value :: rest)

/-- The arguments that are not consumed as a value and are not a `-config`
with its value, in order. -/
def plain_args (argv : List String) : List String :=
  (classify argv).filterMap (fun a => match a with
    | Arg.plain t => some t
    | Arg.config _ => none)

/-- The values consumed by the `-config` arguments, in order. -/
def config_values (argv : List String) : List String :=
  (classify argv).filterMap (fun a => match a with
    | Arg.plain _ => none
    | Arg.config v => some v)

/-- Whether an argument begins with `-`. -/
def begins_with_dash (t : String) : Bool := decide (t.data.head? = some (Char.ofNat 45))

/-- The name that a header line stores, when `read_file` accepts the line:
the line passes the blank-line and comment checks, has exactly the three
tokens `#define`, name, literal, and the literal parses to at most
`0xFFFFFFFF`. -/
def accepted_name (parse : CStr → List String) (line : CStr) : Option String :=
  if at_end_of_line (skip_blanks line) = true ∨ at_comment (skip_blanks line) = true then none
  else
    match parse (skip_blanks line) with
    | [t0, N, L] => if t0 = "#define" ∧ strtoull L.data ≤ 0xFFFFFFFF then some N else none
    | _ => none

/-- The decimal rendering of a number. -/
def dec_text (v : Nat) : List Char := Nat.toDigits 10 v

/-- The octal rendering of a number. -/
def oct_text (v : Nat) : List Char := Nat.toDigits 8 v

/-- The hexadecimal rendering of a number, with the letters in lower case. -/
def hex_text_lower (v : Nat) : List Char := Nat.toDigits 16 v

/-- The hexadecimal rendering of a number, with the letters in upper case. -/
def hex_text_upper (v : Nat) : List Char := (Nat.toDigits 16 v).map Char.toUpper

/-- The number that a sequence of digits denotes in a base. -/
def digits_value (base : Nat) (ds : List Char) : Nat :=
  ds.foldl (fun acc c => acc * base + (digit_value c).getD 0) 0

/-! ## The order of `std::string` -/

theorem char_eq_of_toNat_eq {a b : Char} (h : a.toNat = b.toNat) : a = b := by
  apply Char.ext
  apply UInt32.ext
  exact h

theorem lex_lt_irrefl (a : List Char) : lex_lt a a = false := by
  induction a with
  | nil => rfl
  | cons c cs ih => simp [lex_lt, ih]

theorem lex_lt_trans : ∀ (a b c : List Char),
    lex_lt a b = true → lex_lt b c = true → lex_lt a c = true
  | _, [], _, h, _ => by cases ‹List Char› <;> simp [lex_lt] at h
  | _, _ :: _, [], _, h => by simp [lex_lt] at h
  | [], _ :: _, _ :: _, _, _ => by simp [lex_lt]
  | x :: xs, y :: ys, z :: zs, h1, h2 => by
    simp only [lex_lt] at h1 h2 ⊢
    by_cases hxy : x.toNat < y.toNat
    · by_cases hyz : y.toNat < z.toNat
      · have : x.toNat < z.toNat := lt_trans hxy hyz
        simp [this]
      · have hzy : ¬ z.toNat < y.toNat := by
          intro hzy; simp [hyz, hzy] at h2
        have : x.toNat < z.toNat := by omega
        simp [this]
    · have hyx : ¬ y.toNat < x.toNat := by
        intro hyx; simp [hxy, hyx] at h1
      simp only [hxy, hyx, if_false] at h1
      by_cases hyz : y.toNat < z.toNat
      · have : x.toNat < z.toNat := by omega
        simp [this]
      · have hzy : ¬ z.toNat < y.toNat := by
          intro hzy; simp [hyz, hzy] at h2
        simp only [hyz, hzy, if_false] at h2
        have hxz : ¬ x.toNat < z.toNat := by omega
        have hzx : ¬ z.toNat < x.toNat := by omega
        simp only [hxz, hzx, if_false]
        exact lex_lt_trans xs ys zs h1 h2

theorem lex_lt_total : ∀ (a b : List Char),
    lex_lt a b = false → lex_lt b a = false → a = b
  | [], [], _, _ => rfl
  | [], _ :: _, h, _ => by simp [lex_lt] at h
  | _ :: _, [], _, h => by simp [lex_lt] at h
  | x :: xs, y :: ys, h1, h2 => by
    simp only [lex_lt] at h1 h2
    by_cases hxy : x.toNat < y.toNat
    · simp [hxy] at h1
    · by_cases hyx : y.toNat < x.toNat
      · simp [hyx] at h2
      · simp only [hxy, hyx, if_false] at h1 h2
        have hc : x = y := char_eq_of_toNat_eq (by omega)
        rw [hc, lex_lt_total xs ys h1 h2]

theorem lex_lt_iff_lex (a b : List Char) :
    lex_lt a b = true ↔ List.Lex (fun x y : Char => x.toNat < y.toNat) a b := by
  induction a generalizing b with
  | nil =>
    cases b with
    | nil => simp [lex_lt]
    | cons y ys => simp [lex_lt, List.Lex.nil]
  | cons x xs ih =>
    cases b with
    | nil => simp [lex_lt]
    | cons y ys =>
      simp only [lex_lt]
      constructor
      · intro h
        by_cases hxy : x.toNat < y.toNat
        · exact List.Lex.rel hxy
        · by_cases hyx : y.toNat < x.toNat
          · simp [hxy, hyx] at h
          · simp only [hxy, hyx, if_false] at h
            have hc : x = y := char_eq_of_toNat_eq (by omega)
            subst hc
            exact List.Lex.cons ((ih ys).mp h)
      · intro h
        cases h with
        | cons h' =>
          have := (ih ys).mpr h'
          simp [this]
        | rel h' => simp [h']

theorem str_lt_irrefl (a : String) : str_lt a a = false := lex_lt_irrefl a.data

theorem str_lt_trans {a b c : String} (h1 : str_lt a b = true) (h2 : str_lt b c = true) :
    str_lt a c = true := lex_lt_trans _ _ _ h1 h2

theorem str_lt_total {a b : String} (h1 : str_lt a b = false) (h2 : str_lt b a = false) :
    a = b := String.ext (lex_lt_total _ _ h1 h2)

theorem str_lt_ne {a b : String} (h : str_lt a b = true) : a ≠ b := by
  intro e
  subst e
  rw [str_lt_irrefl] at h
  exact Bool.false_ne_true h

theorem str_lt_asymm {a b : String} (h : str_lt a b = true) : str_lt b a = false := by
  cases hb : str_lt b a with
  | false => rfl
  | true =>
    have := str_lt_trans h hb
    rw [str_lt_irrefl] at this
    exact absurd this Bool.false_ne_true

/-! ## `std::map` -/

theorem StdMap.find_assign_same {V : Type} (m : StdMap V) (k : String) (v : V) :
    (m.assign k v).find k = some v := by
  induction m with
  | nil => simp [StdMap.assign, StdMap.find, str_lt_irrefl]
  | cons e rest ih =>
    obtain ⟨k1, v1⟩ := e
    simp only [StdMap.assign]
    by_cases h1 : str_lt k1 k = true
    · simp [h1, StdMap.find, ih]
    · by_cases h2 : str_lt k k1 = true
      · simp [h1, h2, StdMap.find, str_lt_irrefl]
      · simp [h1, h2, StdMap.find, str_lt_irrefl]

theorem StdMap.find_assign_other {V : Type} (m : StdMap V) (k : String) (v : V) (k2 : String)
    (hne : k2 ≠ k) : (m.assign k v).find k2 = m.find k2 := by
  induction m with
  | nil =>
    simp only [StdMap.assign, StdMap.find]
    by_cases h1 : str_lt k k2 = true
    · simp [h1]
    · by_cases h2 : str_lt k2 k = true
      · simp [h1, h2]
      · exact absurd (str_lt_total (by simpa using h2) (by simpa using h1)) hne
  | cons e rest ih =>
    obtain ⟨k1, v1⟩ := e
    simp only [StdMap.assign]
    by_cases h1 : str_lt k1 k = true
    · simp [h1, StdMap.find, ih]
    · have h1f : str_lt k1 k = false := by simpa using h1
      by_cases h2 : str_lt k k1 = true
      · simp only [h1, h2, if_true, if_false, StdMap.find]
        by_cases h3 : str_lt k k2 = true
        · simp [h3]
        · have h3f : str_lt k k2 = false := by simpa using h3
          have h4 : str_lt k2 k = true := by
            cases h : str_lt k2 k with
            | true => rfl
            | false => exact absurd (str_lt_total h h3f) hne
          have h5 : str_lt k2 k1 = true := str_lt_trans h4 h2
          simp [h3, h4, h5, str_lt_asymm h5]
      · have h2f : str_lt k k1 = false := by simpa using h2
        have hk : k = k1 := str_lt_total h2f h1f
        subst hk
        simp only [h1f, Bool.false_eq_true, if_false, StdMap.find]
        by_cases h3 : str_lt k k2 = true
        · simp [h3]
        · have h3f : str_lt k k2 = false := by simpa using h3
          have h4 : str_lt k2 k = true := by
            cases h : str_lt k2 k with
            | true => rfl
            | false => exact absurd (str_lt_total h h3f) hne
          simp [h3f, h4]

theorem StdMap.mem_assign {V : Type} (m : StdMap V) (k : String) (v : V) :
    (k, v) ∈ m.assign k v := by
  induction m with
  | nil => simp [StdMap.assign]
  | cons e rest ih =>
    obtain ⟨k1, v1⟩ := e
    simp only [StdMap.assign]
    split
    · exact List.mem_cons_of_mem _ ih
    · split <;> simp

theorem StdMap.mem_assign_of_ne {V : Type} (m : StdMap V) (k : String) (v : V)
    (e : String × V) (he : e ∈ m) (hne : e.1 ≠ k) : e ∈ m.assign k v := by
  induction m with
  | nil => cases he
  | cons e1 rest ih =>
    obtain ⟨k1, v1⟩ := e1
    simp only [StdMap.assign]
    by_cases h1 : str_lt k1 k = true
    · simp only [h1, if_true]
      rcases List.mem_cons.mp he with h | h
      · simp [h]
      · exact List.mem_cons_of_mem _ (ih h)
    · have h1f : str_lt k1 k = false := by simpa using h1
      by_cases h2 : str_lt k k1 = true
      · simp only [h1, h2, if_true, if_false]
        exact List.mem_cons_of_mem _ he
      · have h2f : str_lt k k1 = false := by simpa using h2
        have hk : k = k1 := str_lt_total h2f h1f
        subst hk
        simp only [h1f, if_false]
        rcases List.mem_cons.mp he with h | h
        · subst h
          exact absurd rfl hne
        · exact List.mem_cons_of_mem _ h

theorem StdMap.mem_of_mem_assign {V : Type} (m : StdMap V) (k : String) (v : V)
    (e : String × V) (he : e ∈ m.assign k v) : e = (k, v) ∨ e ∈ m := by
  induction m with
  | nil => simpa [StdMap.assign] using he
  | cons e1 rest ih =>
    obtain ⟨k1, v1⟩ := e1
    simp only [StdMap.assign] at he
    by_cases h1 : str_lt k1 k = true
    · simp only [h1, if_true] at he
      rcases List.mem_cons.mp he with h | h
      · exact Or.inr (by simp [h])
      · rcases ih h with h | h
        · exact Or.inl h
        · exact Or.inr (List.mem_cons_of_mem _ h)
    · by_cases h2 : str_lt k k1 = true
      · simp only [h1, h2, if_true, if_false] at he
        rcases List.mem_cons.mp he with h | h
        · exact Or.inl h
        · exact Or.inr h
      · simp only [h1, h2, if_false] at he
        rcases List.mem_cons.mp he with h | h
        · exact Or.inl h
        · exact Or.inr (List.mem_cons_of_mem _ h)

theorem StdMap.assign_WF {V : Type} (m : StdMap V) (k : String) (v : V) (hm : m.WF) :
    (m.assign k v).WF := by
  induction m with
  | nil => simp [StdMap.assign, StdMap.WF]
  | cons e1 rest ih =>
    obtain ⟨k1, v1⟩ := e1
    unfold StdMap.WF at hm ih ⊢
    rw [List.pairwise_cons] at hm
    simp only [StdMap.assign]
    by_cases h1 : str_lt k1 k = true
    · simp only [h1, if_true]
      rw [List.pairwise_cons]
      refine ⟨?_, ih hm.2⟩
      intro e he
      rcases StdMap.mem_of_mem_assign rest k v e he with h | h
      · subst h
        exact h1
      · exact hm.1 e h
    · have h1f : str_lt k1 k = false := by simpa using h1
      by_cases h2 : str_lt k k1 = true
      · simp only [h1f, h2, Bool.false_eq_true, if_true, if_false]
        rw [List.pairwise_cons, List.pairwise_cons]
        refine ⟨?_, hm⟩
        intro e he
        rcases List.mem_cons.mp he with h | h
        · subst h
          exact h2
        · exact str_lt_trans h2 (hm.1 e h)
      · have h2f : str_lt k k1 = false := by simpa using h2
        have hk : k = k1 := str_lt_total h2f h1f
        subst hk
        simp only [h1f, Bool.false_eq_true, if_false]
        rw [List.pairwise_cons]
        exact ⟨fun e he => hm.1 e he, hm.2⟩

theorem StdMap.length_assign {V : Type} (m : StdMap V) (k : String) (v : V) :
    (m.assign k v).length = if (m.find k).isSome then m.length else m.length + 1 := by
  induction m with
  | nil => simp [StdMap.assign, StdMap.find]
  | cons e1 rest ih =>
    obtain ⟨k1, v1⟩ := e1
    simp only [StdMap.assign, StdMap.find]
    by_cases h1 : str_lt k1 k = true
    · simp only [h1, if_true, List.length_cons, ih]
      split <;> rfl
    · by_cases h2 : str_lt k k1 = true
      · simp [h1, h2]
      · simp [h1, h2]

theorem StdMap.find_eq_lookup {V : Type} (m : StdMap V) (hm : m.WF) (k : String) :
    m.find k = List.lookup k m := by
  induction m with
  | nil => rfl
  | cons e1 rest ih =>
    obtain ⟨k1, v1⟩ := e1
    unfold StdMap.WF at hm ih
    rw [List.pairwise_cons] at hm
    simp only [StdMap.find, List.lookup_cons]
    by_cases h1 : str_lt k1 k = true
    · have hne : (k == k1) = false := by
        simpa using (str_lt_ne h1).symm
      simp [h1, hne, ih hm.2]
    · have h1f : str_lt k1 k = false := by simpa using h1
      by_cases h2 : str_lt k k1 = true
      · have hne : (k == k1) = false := by simpa using str_lt_ne h2
        simp only [h1, h2, if_true, if_false, hne]
        clear ih
        have hall : ∀ e ∈ rest, str_lt k e.1 = true := fun e he => str_lt_trans h2 (hm.1 e he)
        clear hm
        induction rest with
        | nil => rfl
        | cons e2 rest2 ih2 =>
          obtain ⟨k2, v2⟩ := e2
          have hk2 : (k == k2) = false := by
            simpa using str_lt_ne (hall (k2, v2) (List.mem_cons_self _ _))
          rw [List.lookup_cons, hk2]
          exact ih2 (fun e he => hall e (List.mem_cons_of_mem _ he))
      · have h2f : str_lt k k1 = false := by simpa using h2
        have hk : k = k1 := str_lt_total h2f h1f
        subst hk
        simp [h1f]

theorem StdMap.find_isSome_iff_mem_keys {V : Type} (m : StdMap V) (hm : m.WF) (k : String) :
    (m.find k).isSome = true ↔ k ∈ m.keys := by
  rw [StdMap.find_eq_lookup m hm k]
  induction m with
  | nil => simp [StdMap.keys]
  | cons e1 rest ih =>
    obtain ⟨k1, v1⟩ := e1
    unfold StdMap.WF at hm ih
    rw [List.pairwise_cons] at hm
    rw [List.lookup_cons]
    by_cases hk : k = k1
    · subst hk
      simp [StdMap.keys]
    · have hne : (k == k1) = false := by simpa using hk
      rw [hne]
      simp only [StdMap.keys, List.map_cons, List.mem_cons, hk, false_or]
      exact ih hm.2

theorem StdMap.find_some_mem {V : Type} (m : StdMap V) (k : String) (v : V)
    (h : m.find k = some v) : (k, v) ∈ m := by
  induction m with
  | nil => simp [StdMap.find] at h
  | cons e1 rest ih =>
    obtain ⟨k1, v1⟩ := e1
    simp only [StdMap.find] at h
    by_cases h1 : str_lt k1 k = true
    · simp only [h1, if_true] at h
      exact List.mem_cons_of_mem _ (ih h)
    · have h1f : str_lt k1 k = false := by simpa using h1
      by_cases h2 : str_lt k k1 = true
      · simp [h1, h2] at h
      · have h2f : str_lt k k1 = false := by simpa using h2
        have hk : k = k1 := str_lt_total h2f h1f
        subst hk
        simp only [h1f, if_false] at h
        simp at h
        subst h
        exact List.mem_cons_self _ _

/-! ## The `fgets` loop reaches the end of the file -/

theorem fgets_chars_rest_le (room : Nat) (s : CStr) :
    (fgets_chars room s).2.length ≤ s.length := by
  induction room generalizing s with
  | zero => simp [fgets_chars]
  | succ n ih =>
    cases s with
    | nil => simp [fgets_chars]
    | cons c cs =>
      simp only [fgets_chars]
      split
      · simp
      · have := ih cs
        simp only [List.length_cons]
        omega

theorem fgets_chars_rest_lt (room : Nat) (c : Char) (cs : CStr) :
    (fgets_chars (room + 1) (c :: cs)).2.length < (c :: cs).length := by
  simp only [fgets_chars]
  split
  · simp
  · have := fgets_chars_rest_le room cs
    simp only [List.length_cons]
    omega

theorem fgets_loop_fuel_irrelevant (fuel1 fuel2 : Nat) (s : CStr) (h1 : s.length ≤ fuel1)
    (h2 : s.length ≤ fuel2) : fgets_loop fuel1 s = fgets_loop fuel2 s := by
  induction fuel1 generalizing fuel2 s with
  | zero =>
    have : s = [] := List.length_eq_zero.mp (Nat.le_zero.mp h1)
    subst this
    cases fuel2 <;> rfl
  | succ n ih =>
    cases s with
    | nil => cases fuel2 <;> rfl
    | cons c cs =>
      cases fuel2 with
      | zero => simp at h2
      | succ m =>
        have hlt : (fgets_chars (10000 - 1) (c :: cs)).2.length < (c :: cs).length :=
          fgets_chars_rest_lt 9998 c cs
        simp only [List.length_cons] at h1 h2 hlt
        simp only [fgets_loop, fgets, List.cons_ne_nil, if_false]
        rw [ih m _ (by omega) (by omega)]

theorem fgets_loop_fuel (fuel : Nat) (s : CStr) (h : s.length ≤ fuel) :
    fgets_loop fuel s = file_lines s :=
  fgets_loop_fuel_irrelevant fuel s.length s h (Nat.le_refl _)

/-! ## `read_file` -/

theorem read_file_line_recognized (parse : CStr → List String) (T : StdMap Nat) (line : CStr)
    (N L : String) (hrec : Recognized parse line N L) :
    read_file_line parse T line =
      if strtoull L.data >>> 32 ≠ 0 then T
      else T.assign N ((strtoull L.data &&& 0xFFFFFFFF) % 2 ^ 32) := by
  obtain ⟨h1, h2, h3⟩ := hrec
  simp [read_file_line, h1, h2, h3]

theorem shift32_eq_zero_iff (v : Nat) : v >>> 32 = 0 ↔ v ≤ 0xFFFFFFFF := by
  rw [Nat.shiftRight_eq_div_pow]
  constructor
  · intro h
    by_contra hc
    have : 2 ^ 32 ≤ v := by norm_num at hc ⊢; omega
    have := Nat.div_pos this (by norm_num)
    omega
  · intro h
    exact Nat.div_eq_of_lt (by norm_num; omega)

theorem mask32_of_le (v : Nat) (h : v ≤ 0xFFFFFFFF) : v &&& 0xFFFFFFFF = v := by
  have h2 : (0xFFFFFFFF : Nat) = 2 ^ 32 - 1 := by norm_num
  rw [h2, Nat.and_pow_two_sub_one_eq_mod]
  exact Nat.mod_eq_of_lt (by norm_num at h ⊢; omega)

theorem read_file_line_accepts (parse : CStr → List String) (T : StdMap Nat) (line : CStr)
    (N L : String) (hrec : Recognized parse line N L) (hle : strtoull L.data ≤ 0xFFFFFFFF) :
    read_file_line parse T line = T.assign N (strtoull L.data) := by
  rw [read_file_line_recognized parse T line N L hrec]
  have h0 : strtoull L.data >>> 32 = 0 := (shift32_eq_zero_iff _).mpr hle
  have hmod : strtoull L.data % 4294967296 = strtoull L.data := Nat.mod_eq_of_lt (by omega)
  simp [h0, mask32_of_le _ hle, hmod]

/-- C1: a header line that survives the blank-line and comment checks and
tokenizes to exactly `#define`, `N`, `L`, where `L` parses to a value `v` of at
most `0xFFFFFFFF`, makes the symbol table map `N` to exactly `v` (the mask
leaves `v` unchanged); the entry of `N` is created or overwritten in place, the
table stays a well-formed map with at most one more entry, and every other
name has the entry it had before. -/
theorem C1_read_file_line_stores (parse : CStr → List String) (T : StdMap Nat) (line : CStr)
    (N L : String) (v : Nat) (hrec : Recognized parse line N L)
    (hv : strtoull L.data = v) (hle : v ≤ 0xFFFFFFFF) :
    v &&& 0xFFFFFFFF = v ∧
    read_file_line parse T line = T.assign N v ∧
    (read_file_line parse T line).find N = some v ∧
    (∀ N2, N2 ≠ N → (read_file_line parse T line).find N2 = T.find N2) ∧
    (read_file_line parse T line).length
      = (if (T.find N).isSome then T.length else T.length + 1) ∧
    (T.WF → (read_file_line parse T line).WF) := by
  have hmask := mask32_of_le v hle
  have hstep : read_file_line parse T line = T.assign N v := by
    subst hv
    exact read_file_line_accepts parse T line N L hrec hle
  refine ⟨hmask, hstep, ?_, ?_, ?_, ?_⟩
  · rw [hstep]; exact StdMap.find_assign_same T N v
  · intro N2 hne
    rw [hstep]; exact StdMap.find_assign_other T N v N2 hne
  · rw [hstep]; exact StdMap.length_assign T N v
  · intro hw
    rw [hstep]; exact StdMap.assign_WF T N v hw

/-- C1, at the line `  #define REG_A 0x1000` read into a table that already
holds `REG_A` and `REG_B`. -/
theorem C1_read_file_line_stores_witness :
    Recognized CTokenizer.parse "  #define REG_A 0x1000\n".data "REG_A" "0x1000" ∧
    strtoull "0x1000".data = 4096 ∧
    read_file_line CTokenizer.parse [("REG_A", 1), ("REG_B", 2)] "  #define REG_A 0x1000\n".data
      = [("REG_A", 4096), ("REG_B", 2)] :=
  ⟨⟨by decide, by decide, by decide⟩, by decide,
    (C1_read_file_line_stores CTokenizer.parse [("REG_A", 1), ("REG_B", 2)]
      "  #define REG_A 0x1000\n".data "REG_A" "0x1000" 4096
      ⟨by decide, by decide, by decide⟩ (by decide) (by decide)).2.1.trans (by decide)⟩

theorem read_file_line_cases (parse : CStr → List String) (T : StdMap Nat) (line : CStr) :
    read_file_line parse T line = T ∨
    ∃ N L, Recognized parse line N L ∧ strtoull L.data ≤ 0xFFFFFFFF ∧
      read_file_line parse T line = T.assign N (strtoull L.data) := by
  by_cases h1 : at_end_of_line (skip_blanks line) = true
  · left; simp [read_file_line, h1]
  by_cases h2 : at_comment (skip_blanks line) = true
  · left; simp [read_file_line, h2]
  have h1f : at_end_of_line (skip_blanks line) = false := by simpa using h1
  have h2f : at_comment (skip_blanks line) = false := by simpa using h2
  by_cases h3 : ∃ N L, parse (skip_blanks line) = ["#define", N, L]
  · obtain ⟨N, L, h3⟩ := h3
    have hrec : Recognized parse line N L := ⟨h1f, h2f, h3⟩
    by_cases h4 : strtoull L.data ≤ 0xFFFFFFFF
    · right
      exact ⟨N, L, hrec, h4, (read_file_line_accepts parse T line N L hrec h4)⟩
    · left
      rw [read_file_line_recognized parse T line N L hrec]
      have : strtoull L.data >>> 32 ≠ 0 := fun h => h4 ((shift32_eq_zero_iff _).mp h)
      simp [this]
  · left
    unfold read_file_line
    simp only [h1f, h2f, Bool.false_eq_true, if_false]
    generalize parse (skip_blanks line) = toks at h3
    rcases toks with _ | ⟨t0, _ | ⟨t1, _ | ⟨t2, _ | ⟨t3, r⟩⟩⟩⟩
    · rfl
    · rfl
    · rfl
    · by_cases ht : t0 = "#define"
      · subst ht
        exact absurd ⟨t1, t2, rfl⟩ h3
      · simp [ht]
    · rfl

theorem read_file_line_key (parse : CStr → List String) (T : StdMap Nat) (line : CStr)
    (k : String) (hk : k ∈ (read_file_line parse T line).keys) :
    k ∈ T.keys ∨ ∃ L, Recognized parse line k L ∧ strtoull L.data ≤ 0xFFFFFFFF := by
  rcases read_file_line_cases parse T line with h | ⟨N, L, hrec, hle, h⟩
  · left; rwa [h] at hk
  · rw [h] at hk
    obtain ⟨e, he, rfl⟩ := List.mem_map.mp hk
    rcases StdMap.mem_of_mem_assign T N _ e he with h2 | h2
    · right
      subst h2
      exact ⟨L, hrec, hle⟩
    · left
      exact List.mem_map.mpr ⟨e, h2, rfl⟩

theorem read_file_lines_key (parse : CStr → List String) (lines : List CStr) (T : StdMap Nat)
    (k : String) (hk : k ∈ (read_file_lines parse T lines).keys) :
    k ∈ T.keys ∨
      ∃ line ∈ lines, ∃ L, Recognized parse line k L ∧ strtoull L.data ≤ 0xFFFFFFFF := by
  induction lines generalizing T with
  | nil => left; simpa [read_file_lines] using hk
  | cons l rest ih =>
    have hk2 : k ∈ (read_file_lines parse (read_file_line parse T l) rest).keys := by
      simpa [read_file_lines] using hk
    rcases ih _ hk2 with h | ⟨line, hl, L, hrec, hle⟩
    · rcases read_file_line_key parse T l k h with h2 | ⟨L, hrec, hle⟩
      · left; exact h2
      · right; exact ⟨l, List.mem_cons_self _ _, L, hrec, hle⟩
    · right; exact ⟨line, List.mem_cons_of_mem _ hl, L, hrec, hle⟩

/-! ## `display_output` -/

theorem display_loop_false (translate : StdMap String) (l : List (String × Nat)) :
    display_loop false translate l = l.map (fun e => printf_symbol e.1 e.2) := by
  induction l with
  | nil => rfl
  | cons e rest ih =>
    obtain ⟨name, value⟩ := e
    simp [display_loop, ih]

theorem display_loop_true (translate : StdMap String) (l : List (String × Nat)) :
    display_loop true translate l =
      l.filterMap (fun e => (translate.find e.1).map (fun a => printf_symbol a e.2)) := by
  induction l with
  | nil => rfl
  | cons e rest ih =>
    obtain ⟨name, value⟩ := e
    simp only [display_loop, if_true, List.filterMap_cons]
    cases h : StdMap.find translate name with
    | none => simp [ih]
    | some a => simp [ih]

theorem display_output_no_config (g : Globals) (h : g.config_file = "") :
    display_output g = g.symbol.map (fun e => printf_symbol e.1 e.2) := by
  simp [display_output, h, display_loop_false]

theorem display_output_config (g : Globals) (h : g.config_file ≠ "") :
    display_output g =
      g.symbol.filterMap (fun e => (g.translate.find e.1).map (fun a => printf_symbol a e.2)) := by
  simp [display_output, h, display_loop_true]

theorem run_no_config (parse : CStr → List String) (fs : String → Option CStr) (g : Globals)
    (content : CStr) (hc : g.config_file = "") (hf : fs g.filename = some content) :
    run parse fs g = .ok ((read_file_lines parse g.symbol (file_lines content)).map
      (fun e => printf_symbol e.1 e.2)) := by
  simp [run, hc, read_file, hf, display_output_no_config]

/-- C2 as stated fails: in the header `#define N 0x100000000`, `#define N 5`
the first line is recognized and its value exceeds `0xFFFFFFFF`, yet `N` is a
key of the symbol table after `read_file` and a run without a configuration
file prints `N=$((0x5))`. -/
theorem C2_later_define_counterexample :
    ("#define N 0x100000000\n".data ∈ file_lines "#define N 0x100000000\n#define N 5\n".data ∧
      Recognized CTokenizer.parse "#define N 0x100000000\n".data "N" "0x100000000" ∧
      0xFFFFFFFF < strtoull "0x100000000".data) ∧
    "N" ∈ (read_file_lines CTokenizer.parse []
      (file_lines "#define N 0x100000000\n#define N 5\n".data)).keys ∧
    run CTokenizer.parse (fun _ => some "#define N 0x100000000\n#define N 5\n".data)
      Globals.init = .ok ["N=$((0x5))\n"] :=
  ⟨⟨by decide, ⟨by decide, by decide, by decide⟩, by decide⟩, by decide, by decide⟩

/-- C2, amended: a recognized line `#define N VALUE` whose value exceeds
`0xFFFFFFFF` leaves the symbol table as it was; and when every recognized
`#define N ...` line of the header has such a value, `N` is not a key of the
symbol table after `read_file`, and a run without a configuration file prints
one line per entry of that table, hence none for `N`. -/
theorem C2_oversized_define_absent (parse : CStr → List String) (content : CStr) (N : String)
    (hN : ∀ line ∈ file_lines content, ∀ L, Recognized parse line N L →
      0xFFFFFFFF < strtoull L.data) :
    (∀ (T : StdMap Nat) (line : CStr) (L : String), Recognized parse line N L →
      0xFFFFFFFF < strtoull L.data → read_file_line parse T line = T) ∧
    N ∉ (read_file_lines parse [] (file_lines content)).keys ∧
    ∀ (fs : String → Option CStr) (fn : String), fs fn = some content →
      run parse fs { Globals.init with filename := fn } =
        .ok ((read_file_lines parse [] (file_lines content)).map
          (fun e => printf_symbol e.1 e.2)) := by
  refine ⟨?_, ?_, ?_⟩
  · intro T line L hrec hbig
    rw [read_file_line_recognized parse T line N L hrec]
    have : strtoull L.data >>> 32 ≠ 0 := fun h =>
      absurd ((shift32_eq_zero_iff _).mp h) (by omega)
    simp [this]
  · intro hk
    rcases read_file_lines_key parse (file_lines content) [] N hk with h | ⟨line, hl, L, hrec, hle⟩
    · simp [StdMap.keys] at h
    · have := hN line hl L hrec
      omega
  · intro fs fn hf
    exact run_no_config parse fs { Globals.init with filename := fn } content rfl hf

/-- C2 amended, at the header of the specification: `REG_C` is defined once,
above 32 bits, and is not a key afterwards. -/
theorem C2_oversized_define_absent_witness :
    "REG_C" ∉ (read_file_lines CTokenizer.parse []
      (file_lines "#define REG_A 0x1000\n#define REG_C 0x100000000\n".data)).keys :=
  (C2_oversized_define_absent CTokenizer.parse
    "#define REG_A 0x1000\n#define REG_C 0x100000000\n".data "REG_C"
    (by
      intro line hl L hrec
      have hl2 : line = "#define REG_A 0x1000\n".data ∨ line = "#define REG_C 0x100000000\n".data := by
        have : file_lines "#define REG_A 0x1000\n#define REG_C 0x100000000\n".data
            = ["#define REG_A 0x1000\n".data, "#define REG_C 0x100000000\n".data] := by decide
        rw [this] at hl
        simpa using hl
      rcases hl2 with h | h
      · subst h
        have h3 := hrec.2.2
        have : CTokenizer.parse (skip_blanks "#define REG_A 0x1000\n".data)
            = ["#define", "REG_A", "0x1000"] := by decide
        rw [this] at h3
        simp at h3
      · subst h
        have h3 := hrec.2.2
        have : CTokenizer.parse (skip_blanks "#define REG_C 0x100000000\n".data)
            = ["#define", "REG_C", "0x100000000"] := by decide
        rw [this] at h3
        simp at h3
        rw [← h3]
        decide)).2.1

/-- C3: with a configuration file in use and a translation table that is not
empty, `display_output` prints, in the order of the symbol table, one line
for each symbol whose name is a key of the translation table and nothing for
the other symbols; the line of a symbol `(name, addr)` is the one of the alias
`translate[name]` with the unchanged address `addr`. -/
theorem C3_display_output_filters (g : Globals) (hc : g.config_file ≠ "")
    (_hne : g.translate ≠ []) (hw : g.translate.WF) :
    display_output g =
      g.symbol.filterMap (fun e =>
        if e.1 ∈ g.translate.keys then
          (List.lookup e.1 g.translate).map (fun a => printf_symbol a e.2)
        else none) ∧
    (∀ name, name ∈ g.translate.keys ↔ ∃ a, List.lookup name g.translate = some a) ∧
    (∀ name a, List.lookup name g.translate = some a → (name, a) ∈ g.translate) := by
  have hkey : ∀ name, name ∈ g.translate.keys ↔ ∃ a, List.lookup name g.translate = some a := by
    intro name
    rw [← StdMap.find_isSome_iff_mem_keys g.translate hw name,
      StdMap.find_eq_lookup g.translate hw name]
    exact Option.isSome_iff_exists
  refine ⟨?_, hkey, ?_⟩
  · rw [display_output_config g hc]
    congr 1
    funext e
    rw [StdMap.find_eq_lookup g.translate hw e.1]
    by_cases hk : e.1 ∈ g.translate.keys
    · simp [hk]
    · have hnone : List.lookup e.1 g.translate = none := by
        cases h : List.lookup e.1 g.translate with
        | none => rfl
        | some a => exact absurd ((hkey e.1).mpr ⟨a, h⟩) hk
      simp [hk, hnone]
  · intro name a h
    rw [← StdMap.find_eq_lookup g.translate hw name] at h
    exact StdMap.find_some_mem g.translate name a h

/-- C3, at the symbols `REG_A`, `REG_B` and the translation `REG_B -> BEE`. -/
theorem C3_display_output_filters_witness :
    display_output (Globals.mk "fpga_reg.h" "regs.cfg"
        [("REG_A", 4096), ("REG_B", 100)] [("REG_B", "BEE")])
      = ["BEE=$((0x64))\n"] :=
  (C3_display_output_filters (Globals.mk "fpga_reg.h" "regs.cfg"
      [("REG_A", 4096), ("REG_B", 100)] [("REG_B", "BEE")])
    (by decide) (by decide) (by simp [StdMap.WF])).1.trans (by decide)

/-- C4 as stated fails: with a configuration file in use whose lines add no
entry, the translation table is empty and `display_output` prints nothing for
the symbol `A`; `main` reaches that state with an empty configuration file. -/
theorem C4_empty_translate_counterexample :
    display_output (Globals.mk "fpga_reg.h" "empty.cfg" [("A", 1)] []) = [] ∧
    main CTokenizer.parse
      (fun fn => if fn = "empty.cfg" then some [] else some "#define A 1\n".data)
      ["-config", "empty.cfg"] = .ok [] ∧
    main CTokenizer.parse
      (fun fn => if fn = "empty.cfg" then some [] else some "#define A 1\n".data)
      [] = .ok ["A=$((0x1))\n"] :=
  ⟨by decide, by decide, by decide⟩

/-- C4, amended: in every program state in which no configuration file is in
use, `display_output` prints one line for every symbol of the symbol table,
in table order and under the original name; with a configuration file in use
and an empty translation table it prints nothing. -/
theorem C4_display_output_unfiltered (g : Globals) :
    (g.config_file = "" →
      display_output g = g.symbol.map (fun e => printf_symbol e.1 e.2)) ∧
    (g.config_file ≠ "" → g.translate = [] → display_output g = []) := by
  refine ⟨display_output_no_config g, ?_⟩
  intro hc ht
  rw [display_output_config g hc, ht]
  simp [StdMap.find]

/-! ## The `%lX` conversion -/

theorem hex_digit_spec : ∀ d, d < 16 →
    is_upper_hex (hex_digit d) = true ∧
    (if (hex_digit d).toNat ≤ 57 then (hex_digit d).toNat - 48 else (hex_digit d).toNat - 55) = d ∧
    (hex_digit d = Char.ofNat 48 ↔ d = 0) := by
  decide

theorem upper_hex_value_append (ds : List Char) (c : Char) :
    upper_hex_value (ds ++ [c]) =
      upper_hex_value ds * 16 + (if c.toNat ≤ 57 then c.toNat - 48 else c.toNat - 55) := by
  simp [upper_hex_value, List.foldl_append]

theorem hex_loop_spec : ∀ (fuel n : Nat) (acc : List Char), n < 16 ^ fuel → 0 < fuel →
    ∃ ds, hex_loop fuel n acc = ds ++ acc ∧ UpperHexOf ds n
  | 0, _, _, _, h0 => absurd h0 (by decide)
  | fuel + 1, n, acc, hn, _ => by
    obtain ⟨hd1, hd2, hd3⟩ := hex_digit_spec (n % 16) (Nat.mod_lt _ (by decide))
    by_cases hq : n / 16 = 0
    · have hlt : n < 16 := by omega
      have hmod : n % 16 = n := Nat.mod_eq_of_lt hlt
      refine ⟨[hex_digit (n % 16)], by simp [hex_loop, hq], by simp, ?_, ?_, ?_, ?_⟩
      · intro c hc
        rw [List.mem_singleton.mp hc]
        exact hd1
      · simp only [upper_hex_value, List.foldl_cons, List.foldl_nil, Nat.zero_mul, Nat.zero_add]
        rw [hd2, hmod]
      · intro h0
        rw [hmod] at hd3
        rw [hmod, hd3.mpr h0]
      · intro h0 hh
        rw [hmod] at hd3
        simp only [List.head?_cons, Option.some.injEq] at hh
        rw [hmod] at hh
        exact h0 (hd3.mp hh)
    · have hfuel : 0 < fuel := by
        rcases Nat.eq_zero_or_pos fuel with h | h
        · subst h
          simp at hn
          omega
        · exact h
      have hn2 : n / 16 < 16 ^ fuel := by
        rw [Nat.div_lt_iff_lt_mul (by decide)]
        rw [pow_succ] at hn
        exact hn
      obtain ⟨ds, hds, hne, hall, hval, _, hlead⟩ :=
        hex_loop_spec fuel (n / 16) (hex_digit (n % 16) :: acc) hn2 hfuel
      refine ⟨ds ++ [hex_digit (n % 16)], by simp [hex_loop, hq, hds], by simp, ?_, ?_, ?_, ?_⟩
      · intro c hc
        rcases List.mem_append.mp hc with h | h
        · exact hall c h
        · rw [List.mem_singleton.mp h]
          exact hd1
      · rw [upper_hex_value_append, hval, hd2]
        omega
      · intro h0
        omega
      · intro _ hh
        apply hlead hq
        cases ds with
        | nil => exact absurd rfl hne
        | cons d ds2 => simpa using hh

theorem fmt_lX_spec (a : Nat) (ha : a < 2 ^ 64) : UpperHexOf (fmt_lX a).data a := by
  obtain ⟨ds, hds, hspec⟩ := hex_loop_spec 16 (a % 2 ^ 64) [] (by
    have := Nat.mod_lt a (show 0 < 2 ^ 64 by norm_num)
    norm_num at this ⊢
    omega) (by decide)
  rw [Nat.mod_eq_of_lt ha] at hds hspec
  simp only [fmt_lX, Nat.mod_eq_of_lt ha]
  rw [hds]
  simpa using hspec

theorem printf_symbol_eq (S : String) (a : Nat) :
    printf_symbol S a = S ++ "=$((0x" ++ String.mk (fmt_lX a).data ++ "))\n" := rfl

/-- C5: every text that `display_output` prints is the line of one emitted
symbol: the output name `S` (the name of a symbol of the table, or its alias
when a configuration file is in use), then `=$((0x`, then the upper-case
hexadecimal digits of the address without leading zeros (the single digit
`0` for the address 0), then `))` and a newline; the output is the list of
these lines and holds nothing else. -/
theorem C5_display_output_format (g : Globals) (h32 : ∀ e ∈ g.symbol, e.2 ≤ 0xFFFFFFFF) :
    ∃ emitted : List (String × Nat × List Char),
      display_output g =
        emitted.map (fun x => x.1 ++ "=$((0x" ++ String.mk x.2.2 ++ "))\n") ∧
      ∀ x ∈ emitted, UpperHexOf x.2.2 x.2.1 ∧ x.2.1 ≤ 0xFFFFFFFF ∧
        ∃ name, (name, x.2.1) ∈ g.symbol ∧
          if g.config_file = "" then x.1 = name else g.translate.find name = some x.1 := by
  by_cases hc : g.config_file = ""
  · refine ⟨g.symbol.map (fun e => (e.1, e.2, (fmt_lX e.2).data)), ?_, ?_⟩
    · rw [display_output_no_config g hc, List.map_map]
      rfl
    · intro x hx
      obtain ⟨e, he, rfl⟩ := List.mem_map.mp hx
      have hle := h32 e he
      refine ⟨fmt_lX_spec e.2 (by norm_num at hle ⊢; omega), hle, e.1, he, ?_⟩
      simp [hc]
  · refine ⟨g.symbol.filterMap (fun e =>
        (g.translate.find e.1).map (fun a => (a, e.2, (fmt_lX e.2).data))), ?_, ?_⟩
    · rw [display_output_config g hc, List.map_filterMap]
      congr 1
      funext e
      cases StdMap.find g.translate e.1 <;> rfl
    · intro x hx
      obtain ⟨e, he, hx2⟩ := List.mem_filterMap.mp hx
      cases hf : StdMap.find g.translate e.1 with
      | none => simp [hf] at hx2
      | some a =>
        simp only [hf, Option.map_some', Option.some.injEq] at hx2
        subst hx2
        have hle := h32 e he
        refine ⟨fmt_lX_spec e.2 (by norm_num at hle ⊢; omega), hle, e.1, he, ?_⟩
        simp [hc, hf]

/-- C5, at the symbols `REG_A = 0x1000` and `ZERO = 0` without a
configuration file. -/
theorem C5_display_output_format_witness :
    ∃ emitted : List (String × Nat × List Char),
      ["REG_A=$((0x1000))\n", "ZERO=$((0x0))\n"] =
        emitted.map (fun x => x.1 ++ "=$((0x" ++ String.mk x.2.2 ++ "))\n") ∧
      ∀ x ∈ emitted, UpperHexOf x.2.2 x.2.1 ∧ x.2.1 ≤ 0xFFFFFFFF ∧
        ∃ name, (name, x.2.1) ∈ [("REG_A", 4096), ("ZERO", 0)] ∧
          if "" = "" then x.1 = name else StdMap.find [] name = some x.1 :=
  C5_display_output_format (Globals.mk "fpga_reg.h" "" [("REG_A", 4096), ("ZERO", 0)] [])
    (by decide)

/-- C6: the lines that `display_output` prints correspond one-to-one, in
order, to the surviving symbols, a sub-sequence of the symbol table that holds
every symbol when no configuration file is in use and the symbols whose name
the translation table holds otherwise; the names of the surviving symbols are
strictly ascending in byte-wise lexicographic order, so each occurs once, and
without a configuration file they are the names printed on the successive
lines. -/
theorem C6_display_output_order (g : Globals) (hw : g.symbol.WF) :
    ∃ surv : List (String × Nat),
      surv.Sublist g.symbol ∧
      (∀ e ∈ g.symbol, e ∈ surv ↔ (g.config_file = "" ∨ (g.translate.find e.1).isSome = true)) ∧
      display_output g = surv.map (fun e =>
        printf_symbol (if g.config_file = "" then e.1 else (g.translate.find e.1).getD e.1) e.2) ∧
      (display_output g).length = surv.length ∧
      List.Pairwise (fun a b : String => List.Lex (fun x y : Char => x.toNat < y.toNat) a.data b.data)
        (surv.map Prod.fst) ∧
      (surv.map Prod.fst).Nodup ∧
      (g.config_file = "" → surv = g.symbol) := by
  have hsorted : ∀ l : List (String × Nat), l.Sublist g.symbol →
      List.Pairwise (fun a b : String =>
        List.Lex (fun x y : Char => x.toNat < y.toNat) a.data b.data) (l.map Prod.fst) := by
    intro l hl
    rw [List.pairwise_map]
    have h1 : List.Pairwise (fun a b : String × Nat => str_lt a.1 b.1 = true) l :=
      List.Pairwise.sublist hl hw
    exact h1.imp (fun {a b} h => (lex_lt_iff_lex a.1.data b.1.data).mp h)
  have hnodup : ∀ l : List (String × Nat), l.Sublist g.symbol → (l.map Prod.fst).Nodup := by
    intro l hl
    have h := hsorted l hl
    unfold List.Nodup
    refine h.imp ?_
    intro a b hab heq
    subst heq
    have := (lex_lt_iff_lex a.data a.data).mpr hab
    rw [lex_lt_irrefl] at this
    exact Bool.false_ne_true this
  by_cases hc : g.config_file = ""
  · refine ⟨g.symbol, List.Sublist.refl _, ?_, ?_, ?_, hsorted _ (List.Sublist.refl _),
      hnodup _ (List.Sublist.refl _), fun _ => rfl⟩
    · intro e he
      simp [hc, he]
    · rw [display_output_no_config g hc]
      simp [hc]
    · rw [display_output_no_config g hc]
      simp
  · have hsub : (g.symbol.filter (fun e => (g.translate.find e.1).isSome)).Sublist g.symbol :=
      List.filter_sublist _
    have hout : display_output g =
        (g.symbol.filter (fun e => (g.translate.find e.1).isSome)).map (fun e =>
          printf_symbol (if g.config_file = "" then e.1
            else (g.translate.find e.1).getD e.1) e.2) := by
      rw [display_output_config g hc]
      generalize g.symbol = l
      induction l with
      | nil => rfl
      | cons e rest ih =>
        rw [List.filterMap_cons, List.filter_cons]
        cases hf : StdMap.find g.translate e.1 with
        | none => simpa [hf] using ih
        | some a => simp [hf, hc, ih]
    refine ⟨g.symbol.filter (fun e => (g.translate.find e.1).isSome), hsub, ?_, hout, ?_,
      hsorted _ hsub, hnodup _ hsub, fun h => absurd h hc⟩
    · intro e he
      simp [List.mem_filter, he, hc]
    · rw [hout, List.length_map]

/-- C6, at a table of three symbols of which the translation table keeps
two. -/
theorem C6_display_output_order_witness :
    ∃ surv : List (String × Nat),
      surv.Sublist [("REG_A", 1), ("REG_B", 2), ("REG_C", 3)] ∧
      (∀ e ∈ [("REG_A", 1), ("REG_B", 2), ("REG_C", 3)], e ∈ surv ↔
        ("c" = "" ∨ (StdMap.find [("REG_A", "Y"), ("REG_C", "X")] e.1).isSome = true)) ∧
      ["Y=$((0x1))\n", "X=$((0x3))\n"] = surv.map (fun e =>
        printf_symbol (if "c" = "" then e.1
          else (StdMap.find [("REG_A", "Y"), ("REG_C", "X")] e.1).getD e.1) e.2) ∧
      ["Y=$((0x1))\n", "X=$((0x3))\n"].length = surv.length ∧
      List.Pairwise (fun a b : String => List.Lex (fun x y : Char => x.toNat < y.toNat) a.data b.data)
        (surv.map Prod.fst) ∧
      (surv.map Prod.fst).Nodup ∧
      ("c" = "" → surv = [("REG_A", 1), ("REG_B", 2), ("REG_C", 3)]) :=
  C6_display_output_order
    (Globals.mk "fpga_reg.h" "c" [("REG_A", 1), ("REG_B", 2), ("REG_C", 3)]
      [("REG_A", "Y"), ("REG_C", "X")])
    (by simp [StdMap.WF]; decide)

/-- C7: with a configuration file in use and a translation table that maps
every name of the symbol table to itself, `display_output` prints exactly the
lines it prints when no configuration file is in use. -/
theorem C7_identity_translation (symbol : StdMap Nat) (translate other : StdMap String)
    (fn1 fn2 cf : String) (hcf : cf ≠ "")
    (hid : ∀ n ∈ symbol.keys, translate.find n = some n) :
    display_output (Globals.mk fn1 cf symbol translate) =
      display_output (Globals.mk fn2 "" symbol other) := by
  rw [display_output_config _ hcf, display_output_no_config _ rfl]
  simp only
  induction symbol with
  | nil => rfl
  | cons e rest ih =>
    have he : translate.find e.1 = some e.1 := hid e.1 (by simp [StdMap.keys])
    have hrest : ∀ n ∈ StdMap.keys rest, translate.find n = some n := by
      intro n hn
      apply hid
      simp only [StdMap.keys, List.map_cons, List.mem_cons]
      exact Or.inr hn
    rw [List.filterMap_cons, List.map_cons, he, ← ih hrest]
    rfl

/-- C7, at the symbols `REG_A`, `REG_B` and the configuration lines `REG_A`,
`REG_B`. -/
theorem C7_identity_translation_witness :
    display_output (Globals.mk "fpga_reg.h" "all.cfg" [("REG_A", 4096), ("REG_B", 100)]
        [("REG_A", "REG_A"), ("REG_B", "REG_B")]) =
      display_output (Globals.mk "fpga_reg.h" "" [("REG_A", 4096), ("REG_B", 100)] []) :=
  C7_identity_translation [("REG_A", 4096), ("REG_B", 100)]
    [("REG_A", "REG_A"), ("REG_B", "REG_B")] [] "fpga_reg.h" "fpga_reg.h" "all.cfg"
    (by decide) (by decide)

/-! ## `read_config_file` -/

theorem read_config_line_tokens (parse : CStr → List String) (M : StdMap String) (line : CStr)
    (hend : at_end_of_line (skip_blanks (replace_first_eq line)) = false)
    (hcom : at_comment (skip_blanks (replace_first_eq line)) = false) :
    read_config_line parse M line =
      match parse (skip_blanks (replace_first_eq line)) with
      | [t0] => some (M.assign t0 t0)
      | t0 :: t1 :: _ => some (M.assign t0 t1)
      | [] => none := by
  simp [read_config_line, hend, hcom]

/-- C8: for a configuration line that survives the blank-line and comment
checks (made, like the tokenizing, after the first `=` has become a space):
when it tokenizes to exactly one token `t`, the translation table after the
line maps `t` to `t`; when it tokenizes to two or more tokens `t0`, `t1`, ...,
the table maps `t0` to `t1`, whatever the later tokens are. In both cases the
line is the assignment `translate[key] = value`: an earlier entry of the key
is overwritten in place, the table stays a well-formed map, and every other
key has the entry it had before. -/
theorem C8_read_config_line_maps (parse : CStr → List String) (M : StdMap String) (line : CStr)
    (hend : at_end_of_line (skip_blanks (replace_first_eq line)) = false)
    (hcom : at_comment (skip_blanks (replace_first_eq line)) = false) :
    (∀ t, parse (skip_blanks (replace_first_eq line)) = [t] →
      ∃ M2, read_config_line parse M line = some M2 ∧ M2 = M.assign t t ∧
        M2.find t = some t ∧ (∀ k, k ≠ t → M2.find k = M.find k) ∧
        M2.length = (if (M.find t).isSome then M.length else M.length + 1) ∧
        (M.WF → M2.WF)) ∧
    (∀ t0 t1 more, parse (skip_blanks (replace_first_eq line)) = t0 :: t1 :: more →
      ∃ M2, read_config_line parse M line = some M2 ∧ M2 = M.assign t0 t1 ∧
        M2.find t0 = some t1 ∧ (∀ k, k ≠ t0 → M2.find k = M.find k) ∧
        M2.length = (if (M.find t0).isSome then M.length else M.length + 1) ∧
        (M.WF → M2.WF)) := by
  have hstep := read_config_line_tokens parse M line hend hcom
  constructor
  · intro t ht
    rw [ht] at hstep
    exact ⟨M.assign t t, hstep, rfl, StdMap.find_assign_same M t t,
      fun k hk => StdMap.find_assign_other M t t k hk, StdMap.length_assign M t t,
      StdMap.assign_WF M t t⟩
  · intro t0 t1 more ht
    rw [ht] at hstep
    exact ⟨M.assign t0 t1, hstep, rfl, StdMap.find_assign_same M t0 t1,
      fun k hk => StdMap.find_assign_other M t0 t1 k hk, StdMap.length_assign M t0 t1,
      StdMap.assign_WF M t0 t1⟩

/-- C8, at the line `REG_B BEE extra` read into a table that already maps
`REG_B`. -/
theorem C8_read_config_line_maps_witness :
    read_config_line CTokenizer.parse [("REG_A", "A"), ("REG_B", "old")]
      "REG_B BEE extra\n".data = some [("REG_A", "A"), ("REG_B", "BEE")] := by
  obtain ⟨M2, h1, h2, _⟩ :=
    (C8_read_config_line_maps CTokenizer.parse [("REG_A", "A"), ("REG_B", "old")]
      "REG_B BEE extra\n".data (by decide) (by decide)).2 "REG_B" "BEE" ["extra"] (by decide)
  rw [h1, h2]
  decide

/-! ## The tokenizer on plain names -/

theorem is_plain_facts {c : Char} (h : is_plain c = true) :
    is_end c = false ∧ isspace c = false ∧ c ≠ dquote ∧ c ≠ Char.ofNat 61 ∧ c.toNat ≠ 0 ∧
      c.toNat ≠ 32 ∧ c.toNat ≠ 9 ∧ c.toNat ≠ 10 ∧ c.toNat ≠ 13 := by
  simp only [is_plain, isspace, Bool.and_eq_true, Bool.not_eq_true', Bool.or_eq_false_iff,
    decide_eq_true_eq, decide_eq_false_iff_not, Bool.and_eq_false_iff, ne_eq] at h
  obtain ⟨⟨⟨⟨h0, h32, hsp⟩, h61⟩, h34⟩, _⟩ := h
  have h9 : c.toNat ≠ 9 := by omega
  have h10 : c.toNat ≠ 10 := by omega
  have h13 : c.toNat ≠ 13 := by omega
  have hspace : isspace c = false := by
    simp only [isspace, Bool.or_eq_false_iff, decide_eq_false_iff_not, Bool.and_eq_false_iff]
    exact ⟨h32, hsp⟩
  refine ⟨by simp [is_end, h0, h10, h13], hspace, ?_, ?_, h0, h32, h9, h10, h13⟩
  · intro e
    apply h34
    rw [e]
    rfl
  · intro e
    apply h61
    rw [e]
    rfl

theorem scan_plain (w : List Char) (hw : ∀ c ∈ w, is_plain c = true) (rest acc : List Char) :
    CTokenizer.scan (w ++ rest) (some (false, acc)) =
      CTokenizer.scan rest (some (false, w.reverse ++ acc)) := by
  induction w generalizing acc with
  | nil => rfl
  | cons c cs ih =>
    obtain ⟨h1, h2, _⟩ := is_plain_facts (hw c (List.mem_cons_self _ _))
    rw [List.cons_append]
    simp only [CTokenizer.scan, h1, h2, Bool.false_eq_true, if_false]
    rw [ih (fun d hd => hw d (List.mem_cons_of_mem _ hd))]
    simp

theorem scan_token (w : List Char) (hne : w ≠ []) (hw : ∀ c ∈ w, is_plain c = true)
    (rest : List Char) :
    CTokenizer.scan (w ++ rest) none = CTokenizer.scan rest (some (false, w.reverse)) := by
  cases w with
  | nil => exact absurd rfl hne
  | cons c cs =>
    obtain ⟨h1, h2, h3, _⟩ := is_plain_facts (hw c (List.mem_cons_self _ _))
    rw [List.cons_append]
    simp only [CTokenizer.scan, h1, h2, h3, Bool.false_eq_true, if_false]
    rw [scan_plain cs (fun d hd => hw d (List.mem_cons_of_mem _ hd))]
    simp

theorem scan_line_end (eol : List Char)
    (heol : eol = [] ∨ eol = [Char.ofNat 10] ∨ eol = [Char.ofNat 13, Char.ofNat 10])
    (acc : List Char) :
    CTokenizer.scan eol (some (false, acc)) = [String.mk acc.reverse] := by
  rcases heol with h | h | h <;> subst h
  · rfl
  · have : is_end (Char.ofNat 10) = true := by decide
    simp [CTokenizer.scan, this]
  · have : is_end (Char.ofNat 13) = true := by decide
    simp [CTokenizer.scan, this]

theorem parse_two_names (N A : String) (eol : List Char) (hN : N.data ≠ []) (hA : A.data ≠ [])
    (hNp : ∀ c ∈ N.data, is_plain c = true) (hAp : ∀ c ∈ A.data, is_plain c = true)
    (heol : eol = [] ∨ eol = [Char.ofNat 10] ∨ eol = [Char.ofNat 13, Char.ofNat 10]) :
    CTokenizer.parse (N.data ++ Char.ofNat 32 :: (A.data ++ eol)) = [N, A] := by
  unfold CTokenizer.parse
  rw [scan_token N.data hN hNp]
  have hb : isspace (Char.ofNat 32) = true := by decide
  have he : is_end (Char.ofNat 32) = false := by decide
  simp only [CTokenizer.scan, hb, he, Bool.false_eq_true, if_false, if_true]
  rw [scan_token A.data hA hAp, scan_line_end eol heol]
  simp

theorem replace_first_eq_none (l : List Char) (h : ∀ c ∈ l, c ≠ Char.ofNat 61) :
    replace_first_eq l = l := by
  induction l with
  | nil => rfl
  | cons c cs ih =>
    have hc : c ≠ Char.ofNat 61 := h c (List.mem_cons_self _ _)
    simp only [replace_first_eq, hc, if_false]
    rw [ih (fun d hd => h d (List.mem_cons_of_mem _ hd))]
    simp

theorem replace_first_eq_plain (w rest : List Char) (hw : ∀ c ∈ w, is_plain c = true) :
    replace_first_eq (w ++ Char.ofNat 61 :: rest) = w ++ Char.ofNat 32 :: rest := by
  induction w with
  | nil =>
    have : (Char.ofNat 61).toNat ≠ 0 := by decide
    simp [replace_first_eq, this]
  | cons c cs ih =>
    obtain ⟨_, _, _, h61, h0, _⟩ := is_plain_facts (hw c (List.mem_cons_self _ _))
    rw [List.cons_append]
    simp only [replace_first_eq, h61, h0, if_false]
    rw [ih (fun d hd => hw d (List.mem_cons_of_mem _ hd))]
    rfl

theorem replace_first_eq_idem (l : List Char) (h : l.count (Char.ofNat 61) ≤ 1) :
    replace_first_eq (replace_first_eq l) = replace_first_eq l := by
  induction l with
  | nil => rfl
  | cons c cs ih =>
    by_cases h0 : c.toNat = 0
    · simp [replace_first_eq, h0]
    · by_cases h61 : c = Char.ofNat 61
      · subst h61
        have hcs : ∀ d ∈ cs, d ≠ Char.ofNat 61 := by
          intro d hd e
          subst e
          have := List.count_pos_iff.mpr hd
          simp at h
          omega
        have h32 : (Char.ofNat 32).toNat ≠ 0 := by decide
        have h32b : Char.ofNat 32 ≠ Char.ofNat 61 := by decide
        simp only [replace_first_eq, h0, if_false, if_true, h32, h32b]
        rw [replace_first_eq_none cs hcs]
      · have hcount : cs.count (Char.ofNat 61) ≤ 1 := by
          rw [List.count_cons] at h
          omega
        simp only [replace_first_eq, h0, h61, if_false]
        rw [ih hcount]

theorem read_config_line_plain (M : StdMap String) (N A : String) (eol : List Char)
    (hN : N.data ≠ []) (hA : A.data ≠ [])
    (hNp : ∀ c ∈ N.data, is_plain c = true) (hAp : ∀ c ∈ A.data, is_plain c = true)
    (hsl : ¬ ∃ r, N.data = Char.ofNat 47 :: Char.ofNat 47 :: r)
    (heol : eol = [] ∨ eol = [Char.ofNat 10] ∨ eol = [Char.ofNat 13, Char.ofNat 10])
    (line : CStr)
    (hline : replace_first_eq line = N.data ++ Char.ofNat 32 :: (A.data ++ eol)) :
    read_config_line CTokenizer.parse M line = some (M.assign N A) := by
  have hskip : skip_blanks (N.data ++ Char.ofNat 32 :: (A.data ++ eol))
      = N.data ++ Char.ofNat 32 :: (A.data ++ eol) := by
    cases hd : N.data with
    | nil => exact absurd hd hN
    | cons c cs =>
      obtain ⟨_, _, _, _, _, h32, h9, _⟩ := is_plain_facts (hNp c (by simp [hd]))
      simp [skip_blanks, h32, h9]
  have hend : at_end_of_line (N.data ++ Char.ofNat 32 :: (A.data ++ eol)) = false := by
    cases hd : N.data with
    | nil => exact absurd hd hN
    | cons c cs =>
      obtain ⟨_, _, _, _, h0, _, _, h10, h13⟩ := is_plain_facts (hNp c (by simp [hd]))
      simp [at_end_of_line, cur, h0, h10, h13]
  have hcom : at_comment (N.data ++ Char.ofNat 32 :: (A.data ++ eol)) = false := by
    cases hd : N.data with
    | nil => exact absurd hd hN
    | cons c cs =>
      cases cs with
      | nil =>
        have : Char.ofNat 32 ≠ Char.ofNat 47 := by decide
        simp [at_comment, cur, next, this]
      | cons d ds =>
        by_cases hc : c = Char.ofNat 47
        · by_cases hd2 : d = Char.ofNat 47
          · subst hc
            subst hd2
            exact absurd ⟨ds, hd⟩ hsl
          · simp [at_comment, cur, next, hd2]
        · simp [at_comment, cur, next, hc]
  rw [read_config_line_tokens CTokenizer.parse M line (by rw [hline, hskip]; exact hend)
    (by rw [hline, hskip]; exact hcom), hline, hskip, parse_two_names N A eol hN hA hNp hAp heol]

/-- C9 as stated fails twice. The line `A=B=C` adds `A -> B=C`, while the
line with its first `=` replaced by a space, `A B=C`, has its own first `=`
replaced and adds `A -> B`. And for the name `//R` and the alias `X`, which
hold no `=`, white space or quote, the line `//R=X` is skipped as a comment
and adds no entry. -/
theorem C9_second_equals_counterexample :
    (replace_first_eq "A=B=C\n".data = "A B=C\n".data ∧
      read_config_line CTokenizer.parse [] "A=B=C\n".data = some [("A", "B=C")] ∧
      read_config_line CTokenizer.parse [] "A B=C\n".data = some [("A", "B")]) ∧
    ((∀ c ∈ "//R".data, is_plain c = true) ∧ (∀ c ∈ "X".data, is_plain c = true) ∧
      read_config_line CTokenizer.parse [] "//R=X\n".data = some [] ∧
      read_config_line CTokenizer.parse [] "//R X\n".data = some []) :=
  ⟨⟨by decide, by decide, by decide⟩, by decide, by decide, by decide, by decide⟩

/-- C9, amended: for every configuration line that holds at most one `=`,
processing the line gives the same translation table as processing the line
with that `=` replaced by one space; and for every non-empty name `N` that
does not begin with `//` and every non-empty alias `A`, both without NUL,
`=`, white space and quote characters, the lines `N=A` and `N A`, ended by
nothing, a line feed or a carriage return and a line feed, both perform
exactly `translate[N] = A`. -/
theorem C9_equals_as_space :
    (∀ (parse : CStr → List String) (M : StdMap String) (line : CStr),
      line.count (Char.ofNat 61) ≤ 1 →
      read_config_line parse M line = read_config_line parse M (replace_first_eq line)) ∧
    (∀ (M : StdMap String) (N A : String) (eol : List Char),
      N.data ≠ [] → A.data ≠ [] →
      (∀ c ∈ N.data, is_plain c = true) → (∀ c ∈ A.data, is_plain c = true) →
      (¬ ∃ r, N.data = Char.ofNat 47 :: Char.ofNat 47 :: r) →
      (eol = [] ∨ eol = [Char.ofNat 10] ∨ eol = [Char.ofNat 13, Char.ofNat 10]) →
      read_config_line CTokenizer.parse M (N.data ++ Char.ofNat 61 :: (A.data ++ eol))
        = some (M.assign N A) ∧
      read_config_line CTokenizer.parse M (N.data ++ Char.ofNat 32 :: (A.data ++ eol))
        = some (M.assign N A) ∧
      (M.assign N A).find N = some A ∧
      ∀ k, k ≠ N → (M.assign N A).find k = M.find k) := by
  constructor
  · intro parse M line h
    have hidem := replace_first_eq_idem line h
    unfold read_config_line
    rw [hidem]
  · intro M N A eol hN hA hNp hAp hsl heol
    refine ⟨?_, ?_, StdMap.find_assign_same M N A, fun k hk => StdMap.find_assign_other M N A k hk⟩
    · exact read_config_line_plain M N A eol hN hA hNp hAp hsl heol _
        (replace_first_eq_plain N.data (A.data ++ eol) hNp)
    · apply read_config_line_plain M N A eol hN hA hNp hAp hsl heol
      apply replace_first_eq_none
      intro c hc
      have h61 : ∀ d, is_plain d = true → d ≠ Char.ofNat 61 := fun d hd =>
        (is_plain_facts hd).2.2.2.1
      simp only [List.mem_append, List.mem_cons] at hc
      rcases hc with h | h | h | h
      · exact h61 c (hNp c h)
      · rw [h]; decide
      · exact h61 c (hAp c h)
      · rcases heol with e | e | e <;> subst e
        · cases h
        · simp at h
          rw [h]
          decide
        · simp at h
          rcases h with h | h <;> rw [h] <;> decide

/-- C9 amended, at the lines `REG_B=BEE` and `REG_B BEE`. -/
theorem C9_equals_as_space_witness :
    read_config_line CTokenizer.parse [] "REG_B=BEE\n".data = some [("REG_B", "BEE")] ∧
    read_config_line CTokenizer.parse [] "REG_B BEE\n".data = some [("REG_B", "BEE")] ∧
    read_config_line CTokenizer.parse [] "REG_B=BEE\n".data =
      read_config_line CTokenizer.parse [] (replace_first_eq "REG_B=BEE\n".data) :=
  ⟨(C9_equals_as_space.2 [] "REG_B" "BEE" [Char.ofNat 10] (by decide) (by decide) (by decide)
      (by decide) (by simp) (by simp)).1,
    (C9_equals_as_space.2 [] "REG_B" "BEE" [Char.ofNat 10] (by decide) (by decide) (by decide)
      (by decide) (by simp) (by simp)).2.1,
    C9_equals_as_space.1 CTokenizer.parse [] "REG_B=BEE\n".data (by decide)⟩

/-! ## Texts without a number -/

theorem scan_digits_no_digit (s : CStr)
    (h : ¬ (48 ≤ (cur s).toNat ∧ (cur s).toNat ≤ 57)) : scan_digits 10 s 0 = 0 := by
  cases s with
  | nil => rfl
  | cons c cs =>
    have hc : ¬ (48 ≤ c.toNat ∧ c.toNat ≤ 57) := by simpa [cur] using h
    simp only [scan_digits, digit_value, hc, if_false]
    by_cases h1 : 97 ≤ c.toNat ∧ c.toNat ≤ 122
    · have : ¬ (c.toNat - 97 + 10 < 10) := by omega
      simp [h1, this]
    · by_cases h2 : 65 ≤ c.toNat ∧ c.toNat ≤ 90
      · have : ¬ (c.toNat - 65 + 10 < 10) := by omega
        simp [h1, h2, this]
      · simp [h1, h2]

theorem strtoull_no_number (L : String) (h : NoLeadingNumber L) : strtoull L.data = 0 := by
  unfold NoLeadingNumber at h
  unfold strtoull
  simp only
  generalize after_sign (List.dropWhile isspace L.data) = s at h
  have h48 : cur s ≠ Char.ofNat 48 := by
    intro e
    apply h
    rw [e]
    decide
  have hscan := scan_digits_no_digit s h
  simp only [h48, decide_False, Bool.false_and, Bool.false_eq_true, if_false, hscan]
  have : ¬ (ULLONG_MAX < 0) := by decide
  simp [this]

/-! ## Rejected lines -/

/-- C11: `read_file` leaves the symbol table exactly as it was for a line that
is empty after the leading spaces and tabs, for a line that then begins with
`//`, for a line whose token count is not 3, for a line whose first token is
not `#define`, and for a three-token line whose parsed value has a bit set at
position 32 or above. -/
theorem C11_rejected_line_is_noop (parse : CStr → List String) (T : StdMap Nat) (line : CStr)
    (hrej : at_end_of_line (skip_blanks line) = true ∨
      at_comment (skip_blanks line) = true ∨
      (parse (skip_blanks line)).length ≠ 3 ∨
      (parse (skip_blanks line)).head? ≠ some "#define" ∨
      (∃ t0 N L i, parse (skip_blanks line) = [t0, N, L] ∧ 32 ≤ i ∧
        (strtoull L.data).testBit i = true)) :
    read_file_line parse T line = T := by
  rcases read_file_line_cases parse T line with h | ⟨N, L, ⟨h1, h2, h3⟩, hle, _⟩
  · exact h
  · exfalso
    rcases hrej with h | h | h | h | ⟨t0, N2, L2, i, htok, hi, hbit⟩
    · rw [h1] at h
      exact Bool.false_ne_true h
    · rw [h2] at h
      exact Bool.false_ne_true h
    · rw [h3] at h
      exact h rfl
    · rw [h3] at h
      exact h rfl
    · rw [h3] at htok
      simp only [List.cons.injEq, and_true] at htok
      obtain ⟨_, _, hL⟩ := htok
      subst hL
      have hge : strtoull L.data ≥ 2 ^ i := Nat.testBit_implies_ge hbit
      have hpow : 2 ^ 32 ≤ 2 ^ i := Nat.pow_le_pow_right (by decide) hi
      have h32 : (2 : Nat) ^ 32 = 4294967296 := by norm_num
      omega

/-- C11, at a blank line, a comment, the two-token line
`#define ONLY_ONE_TOKEN`, a define followed by a trailing comment, a line
whose first token is `#undef`, and a define of `0x100000000`, each read into
a table that holds `REG_A`. -/
theorem C11_rejected_line_is_noop_witness :
    read_file_line CTokenizer.parse [("REG_A", 1)] " \t \n".data = [("REG_A", 1)] ∧
    read_file_line CTokenizer.parse [("REG_A", 1)] "  // #define REG_D 0x5\n".data
      = [("REG_A", 1)] ∧
    read_file_line CTokenizer.parse [("REG_A", 1)] "#define ONLY_ONE_TOKEN\n".data
      = [("REG_A", 1)] ∧
    read_file_line CTokenizer.parse [("REG_A", 1)] "#define REG_A 5 // five\n".data
      = [("REG_A", 1)] ∧
    read_file_line CTokenizer.parse [("REG_A", 1)] "#undef REG_A 5\n".data = [("REG_A", 1)] ∧
    read_file_line CTokenizer.parse [("REG_A", 1)] "#define REG_A 0x100000000\n".data
      = [("REG_A", 1)] :=
  ⟨C11_rejected_line_is_noop _ _ _ (Or.inl (by decide)),
    C11_rejected_line_is_noop _ _ _ (Or.inr (Or.inl (by decide))),
    C11_rejected_line_is_noop _ _ _ (Or.inr (Or.inr (Or.inl (by decide)))),
    C11_rejected_line_is_noop _ _ _ (Or.inr (Or.inr (Or.inl (by decide)))),
    C11_rejected_line_is_noop _ _ _ (Or.inr (Or.inr (Or.inr (Or.inl (by decide))))),
    C11_rejected_line_is_noop _ _ _ (Or.inr (Or.inr (Or.inr (Or.inr
      ⟨"#define", "REG_A", "0x100000000", 32, by decide, by decide, by decide⟩))))⟩

/-! ## Lines without a token -/

/-- C12, the code at a failing input: `read_config_file` has no test for an
empty token vector. Whenever a line passes the end-of-line and comment
checks and the tokenizer returns no token for it, the statement
`translate[token[0]] = token[1]` indexes the vector out of range. With the
tokenizer of the specification the line made of a form feed is such a line:
the form feed is neither a space nor a tab, so the checks pass, and it is
white space, so the line has no token; the line is not a no-op, and `main`
on a configuration file that holds it has undefined behaviour. -/
theorem C12_form_feed_line_out_of_range :
    (∀ (parse : CStr → List String) (M : StdMap String) (line : CStr),
      at_end_of_line (skip_blanks (replace_first_eq line)) = false →
      at_comment (skip_blanks (replace_first_eq line)) = false →
      parse (skip_blanks (replace_first_eq line)) = [] →
      read_config_line parse M line = none) ∧
    at_end_of_line (skip_blanks (replace_first_eq [Char.ofNat 12, Char.ofNat 10])) = false ∧
    at_comment (skip_blanks (replace_first_eq [Char.ofNat 12, Char.ofNat 10])) = false ∧
    CTokenizer.parse (skip_blanks (replace_first_eq [Char.ofNat 12, Char.ofNat 10])) = [] ∧
    read_config_line CTokenizer.parse [("REG_A", "A")] [Char.ofNat 12, Char.ofNat 10] = none ∧
    main CTokenizer.parse
      (fun fn => if fn = "regs.cfg" then some [Char.ofNat 12, Char.ofNat 10]
        else some "#define REG_A 1\n".data)
      ["-config", "regs.cfg"] = .undefined := by
  refine ⟨?_, by decide, by decide, by decide, by decide, by decide⟩
  intro parse M line hend hcom htok
  rw [read_config_line_tokens parse M line hend hcom, htok]

/-! ## Digit strings and `strtoull` -/

theorem digit_value_digitChar : ∀ d, d < 16 →
    digit_value (Nat.digitChar d) = some d ∧
    digit_value (Char.toUpper (Nat.digitChar d)) = some d ∧
    hex_digit d = Char.toUpper (Nat.digitChar d) ∧
    (Nat.digitChar d = Char.ofNat 48 ↔ d = 0) := by
  decide

theorem scan_digits_valid (base : Nat) (ds : List Char)
    (h : ∀ c ∈ ds, is_digit_of base c = true) (rest : CStr) (acc : Nat) :
    scan_digits base (ds ++ rest) acc =
      scan_digits base rest
        (ds.foldl (fun a c => a * base + (digit_value c).getD 0) acc) := by
  induction ds generalizing acc with
  | nil => rfl
  | cons c cs ih =>
    have hc := h c (List.mem_cons_self _ _)
    unfold is_digit_of at hc
    rw [List.cons_append]
    cases hd : digit_value c with
    | none => simp [hd] at hc
    | some d =>
      simp only [hd, decide_eq_true_eq] at hc
      simp only [scan_digits, hd, hc, if_true, List.foldl_cons, Option.getD_some]
      exact ih (fun x hx => h x (List.mem_cons_of_mem _ hx)) _

theorem scan_digits_all (base : Nat) (ds : List Char)
    (h : ∀ c ∈ ds, is_digit_of base c = true) :
    scan_digits base ds 0 = digits_value base ds := by
  have := scan_digits_valid base ds h [] 0
  rw [List.append_nil] at this
  rw [this]
  rfl

theorem toDigitsCore_spec (base : Nat) (hb : 1 < base) :
    ∀ (fuel n : Nat) (acc : List Char), n < base ^ fuel → 0 < fuel →
      ∃ ns : List Nat, Nat.toDigitsCore base fuel n acc = ns.map Nat.digitChar ++ acc ∧
        ns ≠ [] ∧ (∀ d ∈ ns, d < base) ∧ ns.foldl (fun a d => a * base + d) 0 = n ∧
        (n ≠ 0 → ns.head? ≠ some 0)
  | 0, _, _, _, h0 => absurd h0 (by decide)
  | fuel + 1, n, acc, hn, _ => by
    have hbpos : 0 < base := by omega
    by_cases hq : n / base = 0
    · have hlt : n < base := (Nat.div_eq_zero_iff hbpos).mp hq
      have hmod : n % base = n := Nat.mod_eq_of_lt hlt
      refine ⟨[n], by simp [Nat.toDigitsCore, hq, hmod], by simp, ?_, by simp, ?_⟩
      · intro d hd
        rw [List.mem_singleton.mp hd]
        exact hlt
      · intro h0 hh
        simp at hh
        exact h0 hh
    · have hfuel : 0 < fuel := by
        rcases Nat.eq_zero_or_pos fuel with h | h
        · subst h
          simp at hn
          exact absurd (Nat.div_eq_of_lt hn) hq
        · exact h
      have hn2 : n / base < base ^ fuel := by
        rw [Nat.div_lt_iff_lt_mul hbpos]
        rw [pow_succ] at hn
        exact hn
      obtain ⟨ns, hns, hne, hall, hval, hlead⟩ :=
        toDigitsCore_spec base hb fuel (n / base) (Nat.digitChar (n % base) :: acc) hn2 hfuel
      refine ⟨ns ++ [n % base], by simp [Nat.toDigitsCore, hq, hns], by simp, ?_, ?_, ?_⟩
      · intro d hd
        rcases List.mem_append.mp hd with h | h
        · exact hall d h
        · rw [List.mem_singleton.mp h]
          exact Nat.mod_lt _ hbpos
      · rw [List.foldl_append, hval]
        simp only [List.foldl_cons, List.foldl_nil]
        rw [Nat.mul_comm]
        exact Nat.div_add_mod n base
      · intro _ hh
        apply hlead hq
        cases ns with
        | nil => exact absurd rfl hne
        | cons d ds2 => simpa using hh

theorem toDigits_spec (base : Nat) (hb : 1 < base) (n : Nat) :
    ∃ ns : List Nat, Nat.toDigits base n = ns.map Nat.digitChar ∧
      ns ≠ [] ∧ (∀ d ∈ ns, d < base) ∧ ns.foldl (fun a d => a * base + d) 0 = n ∧
      (n ≠ 0 → ns.head? ≠ some 0) := by
  have hlt : n < base ^ (n + 1) :=
    lt_of_lt_of_le (Nat.lt_pow_self hb n) (Nat.pow_le_pow_right (by omega) (Nat.le_succ n))
  obtain ⟨ns, h1, h2⟩ := toDigitsCore_spec base hb (n + 1) n [] hlt (Nat.succ_pos n)
  exact ⟨ns, by simpa [Nat.toDigits] using h1, h2⟩

theorem digits_of_map (base : Nat) (hb : base ≤ 16) (f : Nat → Char)
    (hf : ∀ d, d < 16 → digit_value (f d) = some d) (ns : List Nat)
    (hns : ∀ d ∈ ns, d < base) :
    (∀ c ∈ ns.map f, is_digit_of base c = true) ∧
    digits_value base (ns.map f) = ns.foldl (fun a d => a * base + d) 0 := by
  constructor
  · intro c hc
    obtain ⟨d, hd, rfl⟩ := List.mem_map.mp hc
    have := hns d hd
    simp [is_digit_of, hf d (by omega), this]
  · unfold digits_value
    rw [List.foldl_map]
    suffices haux : ∀ acc : Nat,
        List.foldl (fun a d => a * base + (digit_value (f d)).getD 0) acc ns
          = List.foldl (fun a d => a * base + d) acc ns from haux 0
    induction ns with
    | nil => intro acc; rfl
    | cons d ds ih =>
      intro acc
      have hd := hns d (List.mem_cons_self _ _)
      simp only [List.foldl_cons, hf d (by omega), Option.getD_some]
      exact ih (fun x hx => hns x (List.mem_cons_of_mem _ hx)) _

theorem strtoull_digit_head (c : Char) (cs : CStr) (hc : 48 ≤ c.toNat ∧ c.toNat ≤ 57) :
    strtoull (c :: cs) =
      (if ULLONG_MAX <
          (if (decide (c = Char.ofNat 48)
                && (decide (cur cs = Char.ofNat 120) || decide (cur cs = Char.ofNat 88))
                && is_digit_of 16 (cur (next cs))) = true then scan_digits 16 (next cs) 0
            else if c = Char.ofNat 48 then scan_digits 8 (c :: cs) 0
            else scan_digits 10 (c :: cs) 0)
        then ULLONG_MAX
        else
          (if (decide (c = Char.ofNat 48)
                && (decide (cur cs = Char.ofNat 120) || decide (cur cs = Char.ofNat 88))
                && is_digit_of 16 (cur (next cs))) = true then scan_digits 16 (next cs) 0
            else if c = Char.ofNat 48 then scan_digits 8 (c :: cs) 0
            else scan_digits 10 (c :: cs) 0)) := by
  have hsp : isspace c = false := by
    simp only [isspace, Bool.or_eq_false_iff, decide_eq_false_iff_not, Bool.and_eq_false_iff]
    omega
  have h45 : c ≠ Char.ofNat 45 := by
    intro e
    rw [e] at hc
    revert hc
    decide
  have h43 : c ≠ Char.ofNat 43 := by
    intro e
    rw [e] at hc
    revert hc
    decide
  have hdrop : List.dropWhile isspace (c :: cs) = c :: cs := by
    simp [List.dropWhile, hsp]
  unfold strtoull
  simp only [hdrop, after_sign, cur, next, List.headD_cons, h45, h43, or_self, if_false,
    List.tail_cons, decide_False, Bool.false_eq_true]

theorem is_digit_of_decimal {c : Char} (h : is_digit_of 10 c = true) :
    48 ≤ c.toNat ∧ c.toNat ≤ 57 := by
  unfold is_digit_of at h
  cases hd : digit_value c with
  | none => simp [hd] at h
  | some d =>
    simp only [hd, decide_eq_true_eq] at h
    unfold digit_value at hd
    by_cases h1 : 48 ≤ c.toNat ∧ c.toNat ≤ 57
    · exact h1
    · exfalso
      by_cases h2 : 97 ≤ c.toNat ∧ c.toNat ≤ 122
      · rw [if_neg h1, if_pos h2] at hd
        injection hd with hd
        omega
      · by_cases h3 : 65 ≤ c.toNat ∧ c.toNat ≤ 90
        · rw [if_neg h1, if_neg h2, if_pos h3] at hd
          injection hd with hd
          omega
        · simp [h1, h2, h3] at hd

theorem is_digit_of_mono {b1 b2 : Nat} (hb : b1 ≤ b2) {c : Char}
    (h : is_digit_of b1 c = true) : is_digit_of b2 c = true := by
  unfold is_digit_of at h ⊢
  cases hd : digit_value c with
  | none => simp [hd] at h
  | some d =>
    simp only [hd, decide_eq_true_eq] at h ⊢
    omega

theorem strtoull_decimal (ds : List Char) (hall : ∀ c ∈ ds, is_digit_of 10 c = true)
    (hne : ds ≠ []) (hlead : ds.head? ≠ some (Char.ofNat 48)) :
    strtoull ds =
      if ULLONG_MAX < digits_value 10 ds then ULLONG_MAX else digits_value 10 ds := by
  cases ds with
  | nil => exact absurd rfl hne
  | cons c cs =>
    have hc := is_digit_of_decimal (hall c (List.mem_cons_self _ _))
    have h0 : c ≠ Char.ofNat 48 := by
      intro e
      apply hlead
      rw [e]
      rfl
    rw [strtoull_digit_head c cs hc]
    simp only [h0, decide_False, Bool.false_and, Bool.false_eq_true, if_false]
    rw [scan_digits_all 10 (c :: cs) hall]

theorem strtoull_hex (x : Char) (hx : x = Char.ofNat 120 ∨ x = Char.ofNat 88) (ds : List Char)
    (hall : ∀ c ∈ ds, is_digit_of 16 c = true) (hne : ds ≠ []) :
    strtoull (Char.ofNat 48 :: x :: ds) =
      if ULLONG_MAX < digits_value 16 ds then ULLONG_MAX else digits_value 16 ds := by
  rw [strtoull_digit_head (Char.ofNat 48) (x :: ds) (by decide)]
  have hcur : (decide (x = Char.ofNat 120) || decide (x = Char.ofNat 88)) = true := by
    rcases hx with h | h <;> simp [h]
  have hdig : is_digit_of 16 (cur ds) = true := by
    cases ds with
    | nil => exact absurd rfl hne
    | cons d _ => exact hall d (List.mem_cons_self _ _)
  simp only [cur, next, List.headD_cons, List.tail_cons, decide_True, Bool.true_and, hcur]
  simp only [cur] at hdig
  simp only [hdig, if_true]
  rw [scan_digits_all 16 ds hall]

theorem strtoull_octal (ds : List Char) (hall : ∀ c ∈ ds, is_digit_of 8 c = true) :
    strtoull (Char.ofNat 48 :: ds) =
      if ULLONG_MAX < digits_value 8 ds then ULLONG_MAX else digits_value 8 ds := by
  rw [strtoull_digit_head (Char.ofNat 48) ds (by decide)]
  have hcur : (decide (cur ds = Char.ofNat 120) || decide (cur ds = Char.ofNat 88)) = false := by
    cases ds with
    | nil => decide
    | cons d _ =>
      have hd := is_digit_of_decimal
        (is_digit_of_mono (by decide : 8 ≤ 10) (hall d (List.mem_cons_self _ _)))
      have h1 : d ≠ Char.ofNat 120 := by
        intro e
        rw [e] at hd
        revert hd
        decide
      have h2 : d ≠ Char.ofNat 88 := by
        intro e
        rw [e] at hd
        revert hd
        decide
      simp [cur, h1, h2]
  have hzero : scan_digits 8 (Char.ofNat 48 :: ds) 0 = scan_digits 8 ds 0 := by
    have hv : digit_value (Char.ofNat 48) = some 0 := by decide
    simp [scan_digits, hv]
  simp only [hcur, Bool.and_false, Bool.false_and, Bool.false_eq_true, if_false, if_true, hzero]
  rw [scan_digits_all 8 ds hall]

theorem toDigits_text (base : Nat) (hb1 : 1 < base) (hb2 : base ≤ 16) (v : Nat) :
    (∀ c ∈ Nat.toDigits base v, is_digit_of base c = true) ∧
    digits_value base (Nat.toDigits base v) = v ∧ Nat.toDigits base v ≠ [] ∧
    (v ≠ 0 → (Nat.toDigits base v).head? ≠ some (Char.ofNat 48)) ∧
    (∀ c ∈ (Nat.toDigits base v).map Char.toUpper, is_digit_of base c = true) ∧
    digits_value base ((Nat.toDigits base v).map Char.toUpper) = v ∧
    (Nat.toDigits base v).map Char.toUpper ≠ [] := by
  obtain ⟨ns, hns, hne, hall, hval, hlead⟩ := toDigits_spec base hb1 v
  have h1 := digits_of_map base hb2 Nat.digitChar
    (fun d hd => (digit_value_digitChar d hd).1) ns hall
  have h2 := digits_of_map base hb2 (fun d => Char.toUpper (Nat.digitChar d))
    (fun d hd => (digit_value_digitChar d hd).2.1) ns hall
  have hmap : (ns.map Nat.digitChar).map Char.toUpper
      = ns.map (fun d => Char.toUpper (Nat.digitChar d)) := by
    rw [List.map_map]
    rfl
  rw [hns, hmap]
  refine ⟨h1.1, by rw [h1.2, hval], by simpa using hne, ?_, h2.1, by rw [h2.2, hval],
    by simpa using hne⟩
  intro hv hh
  apply hlead hv
  cases ns with
  | nil => exact absurd rfl hne
  | cons d rest =>
    have hd := hall d (List.mem_cons_self _ _)
    simp only [List.map_cons, List.head?_cons, Option.some.injEq] at hh ⊢
    exact ((digit_value_digitChar d (by omega)).2.2.2).mp hh

theorem saturate_small (v : Nat) (hv : v ≤ 0xFFFFFFFF) :
    (if ULLONG_MAX < v then ULLONG_MAX else v) = v := by
  have : ¬ ULLONG_MAX < v := by
    unfold ULLONG_MAX
    omega
  simp [this]

theorem hex_loop_eq_toDigitsCore : ∀ (fuel1 fuel2 n : Nat) (acc : List Char),
    n < 16 ^ fuel1 → n < 16 ^ fuel2 → 0 < fuel1 → 0 < fuel2 →
    hex_loop fuel1 n (acc.map Char.toUpper) =
      (Nat.toDigitsCore 16 fuel2 n acc).map Char.toUpper
  | 0, _, _, _, _, _, h0, _ => absurd h0 (by decide)
  | _ + 1, 0, _, _, _, _, _, h0 => absurd h0 (by decide)
  | f1 + 1, f2 + 1, n, acc, h1, h2, _, _ => by
    have hd := (digit_value_digitChar (n % 16) (Nat.mod_lt _ (by decide))).2.2.1
    by_cases hq : n / 16 = 0
    · simp [hex_loop, Nat.toDigitsCore, hq, hd]
    · have hpos : ∀ f, n < 16 ^ (f + 1) → 0 < f ∧ n / 16 < 16 ^ f := by
        intro f hf
        constructor
        · rcases Nat.eq_zero_or_pos f with h | h
          · subst h
            simp at hf
            exact absurd (Nat.div_eq_of_lt hf) hq
          · exact h
        · rw [Nat.div_lt_iff_lt_mul (by decide)]
          rw [pow_succ] at hf
          exact hf
      have ih := hex_loop_eq_toDigitsCore f1 f2 (n / 16) (Nat.digitChar (n % 16) :: acc)
        (hpos f1 h1).2 (hpos f2 h2).2 (hpos f1 h1).1 (hpos f2 h2).1
      simp only [hex_loop, Nat.toDigitsCore, hq, if_false]
      rw [← ih, List.map_cons, hd]

theorem fmt_lX_eq_hex_text (v : Nat) (hv : v < 2 ^ 64) : (fmt_lX v).data = hex_text_upper v := by
  have h1 : v < 16 ^ 16 := by norm_num at hv ⊢; omega
  have h2 : v < 16 ^ (v + 1) :=
    lt_of_lt_of_le (Nat.lt_pow_self (by decide) v) (Nat.pow_le_pow_right (by decide) (Nat.le_succ v))
  have := hex_loop_eq_toDigitsCore 16 (v + 1) v [] h1 h2 (by decide) (Nat.succ_pos v)
  simp only [fmt_lX, hex_text_upper, Nat.toDigits, Nat.mod_eq_of_lt hv]
  simpa using this

theorem strtoull_forms (v : Nat) (hv : v ≤ 0xFFFFFFFF) (ds : List Char)
    (hL : ds = dec_text v ∨
      (∃ x, (x = Char.ofNat 120 ∨ x = Char.ofNat 88) ∧
        (ds = Char.ofNat 48 :: x :: hex_text_lower v ∨
         ds = Char.ofNat 48 :: x :: hex_text_upper v)) ∨
      ds = Char.ofNat 48 :: oct_text v) :
    strtoull ds = v := by
  rcases hL with h | ⟨x, hx, h | h⟩ | h
  · subst h
    obtain ⟨hall, hval, hne, hlead, _⟩ := toDigits_text 10 (by decide) (by decide) v
    by_cases h0 : v = 0
    · subst h0
      decide
    · unfold dec_text
      rw [strtoull_decimal _ hall hne (hlead h0), hval]
      exact saturate_small v hv
  · subst h
    obtain ⟨hall, hval, hne, _⟩ := toDigits_text 16 (by decide) (by decide) v
    unfold hex_text_lower
    rw [strtoull_hex x hx _ hall hne, hval]
    exact saturate_small v hv
  · subst h
    obtain ⟨_, _, _, _, hall, hval, hne⟩ := toDigits_text 16 (by decide) (by decide) v
    unfold hex_text_upper
    rw [strtoull_hex x hx _ hall hne, hval]
    exact saturate_small v hv
  · subst h
    obtain ⟨hall, hval, _⟩ := toDigits_text 8 (by decide) (by decide) v
    unfold oct_text
    rw [strtoull_octal _ hall, hval]
    exact saturate_small v hv

/-- C13: for every value `v` of at most `0xFFFFFFFF`, a recognized define
line whose third token is the decimal rendering of `v`, or `0x` or `0X`
followed by the hexadecimal rendering of `v` in lower or in upper case, or
`0` followed by the octal rendering of `v`, parses to `v` and stores the
address `v`; the digits that `display_output` prints for the address `v` are
its upper-case hexadecimal rendering, and `0x` followed by them parses back
to `v`. -/
theorem C13_literal_forms (parse : CStr → List String) (T : StdMap Nat) (line : CStr)
    (N L : String) (v : Nat) (hv : v ≤ 0xFFFFFFFF) (hrec : Recognized parse line N L)
    (hL : L.data = dec_text v ∨
      (∃ x, (x = Char.ofNat 120 ∨ x = Char.ofNat 88) ∧
        (L.data = Char.ofNat 48 :: x :: hex_text_lower v ∨
         L.data = Char.ofNat 48 :: x :: hex_text_upper v)) ∨
      L.data = Char.ofNat 48 :: oct_text v) :
    strtoull L.data = v ∧
    read_file_line parse T line = T.assign N v ∧
    (read_file_line parse T line).find N = some v ∧
    (fmt_lX v).data = hex_text_upper v ∧
    strtoull ("0x" ++ fmt_lX v).data = v := by
  have hval : strtoull L.data = v := strtoull_forms v hv L.data hL
  have hstep : read_file_line parse T line = T.assign N v := by
    have := read_file_line_accepts parse T line N L hrec (by rw [hval]; exact hv)
    rwa [hval] at this
  have hfmt : (fmt_lX v).data = hex_text_upper v :=
    fmt_lX_eq_hex_text v (by norm_num at hv ⊢; omega)
  refine ⟨hval, hstep, ?_, hfmt, ?_⟩
  · rw [hstep]
    exact StdMap.find_assign_same T N v
  · apply strtoull_forms v hv
    right; left
    refine ⟨Char.ofNat 120, Or.inl rfl, Or.inr ?_⟩
    rw [String.data_append, hfmt]
    rfl

/-- C13, at the value 100 written as `100`, as `0x64` and as `0144`. -/
theorem C13_literal_forms_witness :
    read_file_line CTokenizer.parse [] "#define REG_B 100\n".data = [("REG_B", 100)] ∧
    read_file_line CTokenizer.parse [] "#define REG_B 0x64\n".data = [("REG_B", 100)] ∧
    read_file_line CTokenizer.parse [] "#define REG_B 0144\n".data = [("REG_B", 100)] ∧
    strtoull ("0x" ++ fmt_lX 100).data = 100 :=
  ⟨(C13_literal_forms CTokenizer.parse [] "#define REG_B 100\n".data "REG_B" "100" 100
      (by decide) ⟨by decide, by decide, by decide⟩ (Or.inl (by decide))).2.1,
    (C13_literal_forms CTokenizer.parse [] "#define REG_B 0x64\n".data "REG_B" "0x64" 100
      (by decide) ⟨by decide, by decide, by decide⟩
      (Or.inr (Or.inl ⟨Char.ofNat 120, Or.inl rfl, Or.inl (by decide)⟩))).2.1,
    (C13_literal_forms CTokenizer.parse [] "#define REG_B 0144\n".data "REG_B" "0144" 100
      (by decide) ⟨by decide, by decide, by decide⟩ (Or.inr (Or.inr (by decide)))).2.1,
    (C13_literal_forms CTokenizer.parse [] "#define REG_B 100\n".data "REG_B" "100" 100
      (by decide) ⟨by decide, by decide, by decide⟩ (Or.inl (by decide))).2.2.2.2⟩

/-! ## `parse_command_line` -/

theorem getLast?_cons_getD {α : Type} (a d : α) (l : List α) :
    (a :: l).getLast?.getD d = l.getLast?.getD a := by
  cases l with
  | nil => rfl
  | cons b l2 =>
    rw [List.getLast?_cons_cons]
    cases h : (b :: l2).getLast? with
    | none => simp at h
    | some x => rfl

theorem plain_args_cons_config (value : String) (rest : List String) :
    plain_args ("-config" :: value :: rest) = plain_args rest ∧
    config_values ("-config" :: value :: rest) = value :: config_values rest := by
  simp [plain_args, config_values, classify]

theorem plain_args_cons_plain (token value : String) (rest : List String)
    (h : token ≠ "-config") :
    plain_args (token :: value :: rest) = token :: plain_args (value :: rest) ∧
    config_values (token :: value :: rest) = config_values (value :: rest) := by
  simp [plain_args, config_values, classify, h]

theorem parse_command_line_spec : ∀ (argv : List String) (g : Globals),
    parse_command_line argv g =
      match (plain_args argv).find? begins_with_dash with
      | some t => .exit1 ("invalid argument " ++ t ++ "\n")
      | none => .ok { g with
          filename := (plain_args argv).getLast?.getD g.filename
          config_file := (config_values argv).getLast?.getD g.config_file }
  | [], g => rfl
  | [token], g => by
    by_cases h : token.data.head? = some (Char.ofNat 45)
    · simp [parse_command_line, plain_args, config_values, classify, begins_with_dash, h]
    · simp [parse_command_line, plain_args, config_values, classify, begins_with_dash, h]
  | token :: value :: rest, g => by
    by_cases hc : token = "-config"
    · subst hc
      rw [(plain_args_cons_config value rest).1, (plain_args_cons_config value rest).2,
        getLast?_cons_getD]
      simp only [parse_command_line, if_true]
      rw [parse_command_line_spec rest]
    · rw [(plain_args_cons_plain token value rest hc).1,
        (plain_args_cons_plain token value rest hc).2, getLast?_cons_getD]
      simp only [parse_command_line, hc, if_false]
      by_cases h : token.data.head? = some (Char.ofNat 45)
      · simp [begins_with_dash, h]
      · have hb : begins_with_dash token = false := by simp [begins_with_dash, h]
        simp only [h, if_false, List.find?_cons, hb]
        rw [parse_command_line_spec (value :: rest)]

theorem classify_append_last : ∀ (argv : List String),
    plain_args (argv ++ ["in.h", "-config"]) = plain_args (argv ++ ["in.h"]) ++ ["-config"]
  | [] => by decide
  | [token] => by
    by_cases hc : token = "-config"
    · subst hc
      decide
    · simp [plain_args, classify, hc]
  | token :: value :: rest => by
    have ih1 := classify_append_last rest
    have ih2 := classify_append_last (value :: rest)
    by_cases hc : token = "-config"
    · subst hc
      simp only [List.cons_append]
      rw [(plain_args_cons_config _ _).1, (plain_args_cons_config _ _).1]
      exact ih1
    · simp only [List.cons_append] at ih2 ⊢
      rw [(plain_args_cons_plain _ _ _ hc).1, (plain_args_cons_plain _ _ _ hc).1, ih2]
      rfl

/-- C14: `parse_command_line` fails if and only if, once every `-config` that
has a following argument has consumed it, some argument that is left begins
with `-`; it then stops with `exit(1)` after the message `invalid argument`
followed by the first such argument. A `-config` in the last place is such an
argument, while an argument consumed as a value never is. -/
theorem C14_parse_command_line_fails (argv : List String) (g : Globals) :
    (∀ msg, parse_command_line argv g = .exit1 msg ↔
      ∃ t, (plain_args argv).find? begins_with_dash = some t ∧
        msg = "invalid argument " ++ t ++ "\n") ∧
    ((∃ msg, parse_command_line argv g = .exit1 msg) ↔
      ∃ t ∈ plain_args argv, begins_with_dash t = true) ∧
    ((∃ g2, parse_command_line argv g = .ok g2) ↔
      ∀ t ∈ plain_args argv, begins_with_dash t = false) ∧
    parse_command_line argv g ≠ .undefined ∧
    plain_args (argv ++ ["in.h", "-config"]) = plain_args (argv ++ ["in.h"]) ++ ["-config"] := by
  have hspec := parse_command_line_spec argv g
  cases hfind : (plain_args argv).find? begins_with_dash with
  | some t =>
    rw [hfind] at hspec
    simp only at hspec
    have hmem : t ∈ plain_args argv := List.mem_of_find?_eq_some hfind
    have hdash : begins_with_dash t = true := List.find?_some hfind
    refine ⟨?_, ?_, ?_, ?_, ?_⟩
    · intro msg
      rw [hspec]
      constructor
      · intro h
        injection h with h
        exact ⟨t, rfl, h.symm⟩
      · rintro ⟨t2, ht2, hmsg⟩
        injection ht2 with ht2
        subst ht2
        rw [hmsg]
    · exact ⟨fun _ => ⟨t, hmem, hdash⟩, fun _ => ⟨_, hspec⟩⟩
    · constructor
      · rintro ⟨g2, hg2⟩
        rw [hspec] at hg2
        cases hg2
      · intro h
        rw [h t hmem] at hdash
        exact absurd hdash Bool.false_ne_true
    · rw [hspec]
      intro h
      cases h
    · exact classify_append_last argv
  | none =>
    rw [hfind] at hspec
    simp only at hspec
    have hall : ∀ t ∈ plain_args argv, begins_with_dash t = false := by
      intro t ht
      have := List.find?_eq_none.mp hfind t ht
      simpa using this
    refine ⟨?_, ?_, ?_, ?_, ?_⟩
    · intro msg
      rw [hspec]
      constructor
      · intro h
        cases h
      · rintro ⟨t2, ht2, _⟩
        cases ht2
    · constructor
      · rintro ⟨msg, hmsg⟩
        rw [hspec] at hmsg
        cases hmsg
      · rintro ⟨t, ht, hd⟩
        rw [hall t ht] at hd
        exact absurd hd Bool.false_ne_true
    · exact ⟨fun _ => hall, fun _ => ⟨_, hspec⟩⟩
    · rw [hspec]
      intro h
      cases h
    · exact classify_append_last argv

/-- C14, at a command line whose `-config` consumes `-v` and whose first
argument left with a `-` in front is `-x`, and at a `-config` in the last
place. -/
theorem C14_parse_command_line_fails_witness :
    parse_command_line ["-config", "-v", "in.h", "-x", "-y"] Globals.init
      = .exit1 "invalid argument -x\n" ∧
    parse_command_line ["in.h", "-config"] Globals.init
      = .exit1 "invalid argument -config\n" :=
  ⟨((C14_parse_command_line_fails ["-config", "-v", "in.h", "-x", "-y"] Globals.init).1 _).mpr
      ⟨"-x", by decide, by decide⟩,
    ((C14_parse_command_line_fails ["in.h", "-config"] Globals.init).1 _).mpr
      ⟨"-config", by decide, by decide⟩⟩

theorem parse_command_line_ok_iff (argv : List String) (g : Globals) :
    ((∃ g2, parse_command_line argv g = .ok g2) ↔
      ∀ t ∈ plain_args argv, begins_with_dash t = false) ∧
    parse_command_line argv g ≠ .undefined := by
  have hspec := parse_command_line_spec argv g
  cases hfind : (plain_args argv).find? begins_with_dash with
  | some t =>
    rw [hfind] at hspec
    simp only at hspec
    have hmem : t ∈ plain_args argv := List.mem_of_find?_eq_some hfind
    have hdash : begins_with_dash t = true := List.find?_some hfind
    refine ⟨⟨?_, ?_⟩, ?_⟩
    · rintro ⟨g2, hg2⟩
      rw [hspec] at hg2
      cases hg2
    · intro h
      rw [h t hmem] at hdash
      exact absurd hdash Bool.false_ne_true
    · rw [hspec]
      intro h
      cases h
  | none =>
    rw [hfind] at hspec
    simp only at hspec
    refine ⟨⟨fun _ => ?_, fun _ => ⟨_, hspec⟩⟩, ?_⟩
    · intro t ht
      have := List.find?_eq_none.mp hfind t ht
      simpa using this
    · rw [hspec]
      intro h
      cases h

/-- C15: on every argument list on which `parse_command_line` does not fail,
the input filename is the last argument that is neither a `-config` nor the
value consumed by a `-config`, or the initial `fpga_reg.h` when there is no
such argument, and the configuration path is the value consumed by the last
`-config`, or the initial empty path when there is none; the other globals
are untouched. An argument consumed as the value of a `-config` is only
stored as the configuration path, whatever its first character: it is not
among the arguments that can become the filename. -/
theorem C15_parse_command_line_result (argv : List String)
    (hok : ∃ g2, parse_command_line argv Globals.init = .ok g2) :
    parse_command_line argv Globals.init =
      .ok (Globals.mk ((plain_args argv).getLast?.getD "fpga_reg.h")
        ((config_values argv).getLast?.getD "") [] []) ∧
    (∀ t ∈ plain_args argv, begins_with_dash t = false) ∧
    (∀ (value : String) (rest : List String) (g : Globals),
      parse_command_line ("-config" :: value :: rest) g
        = parse_command_line rest { g with config_file := value } ∧
      plain_args ("-config" :: value :: rest) = plain_args rest ∧
      config_values ("-config" :: value :: rest) = value :: config_values rest) := by
  have hall := ((parse_command_line_ok_iff argv Globals.init).1).mp hok
  refine ⟨?_, hall, ?_⟩
  · have hspec := parse_command_line_spec argv Globals.init
    have hfind : (plain_args argv).find? begins_with_dash = none := by
      rw [List.find?_eq_none]
      intro t ht
      simp [hall t ht]
    rw [hfind] at hspec
    exact hspec
  · intro value rest g
    exact ⟨by simp [parse_command_line], plain_args_cons_config value rest⟩

/-- C15, at a command line with two `-config` and two filenames, the first
value beginning with `-`. -/
theorem C15_parse_command_line_result_witness :
    parse_command_line ["-config", "-a.cfg", "one.h", "-config", "b.cfg", "two.h"] Globals.init
      = .ok (Globals.mk "two.h" "b.cfg" [] []) ∧
    parse_command_line ["-config", "-a.cfg"] Globals.init
      = .ok (Globals.mk "fpga_reg.h" "-a.cfg" [] []) :=
  ⟨(C15_parse_command_line_result
      ["-config", "-a.cfg", "one.h", "-config", "b.cfg", "two.h"] ⟨_, rfl⟩).1.trans rfl,
    (C15_parse_command_line_result ["-config", "-a.cfg"] ⟨_, rfl⟩).1.trans rfl⟩

/-! ## Whole runs -/

theorem read_file_line_skipped (parse : CStr → List String) (T : StdMap Nat) (line : CStr)
    (h : at_end_of_line (skip_blanks line) = true ∨ at_comment (skip_blanks line) = true) :
    read_file_line parse T line = T := by
  rcases h with h | h
  · simp [read_file_line, h]
  · by_cases h1 : at_end_of_line (skip_blanks line) = true
    · simp [read_file_line, h1]
    · simp [read_file_line, h1, h]

theorem read_file_line_oversized (parse : CStr → List String) (T : StdMap Nat) (line : CStr)
    (N L : String) (hrec : Recognized parse line N L) (hbig : 0xFFFFFFFF < strtoull L.data) :
    read_file_line parse T line = T := by
  rw [read_file_line_recognized parse T line N L hrec]
  have : strtoull L.data >>> 32 ≠ 0 := fun h =>
    absurd ((shift32_eq_zero_iff _).mp h) (by omega)
  simp [this]

theorem read_file_open (parse : CStr → List String) (fs : String → Option CStr) (fn : String)
    (T : StdMap Nat) (content : CStr) (h : fs fn = some content) :
    read_file parse fs fn T = .ok (read_file_lines parse T (file_lines content)) := by
  simp [read_file, h]

theorem read_config_file_open (parse : CStr → List String) (fs : String → Option CStr)
    (fn : String) (M : StdMap String) (content : CStr) (h : fs fn = some content) :
    read_config_file parse fs fn M =
      match read_config_lines parse M (file_lines content) with
      | none => .undefined
      | some t => .ok t := by
  simp [read_config_file, h]

/-- C16: for the header made of the lines `#define REG_A 0x1000`,
`#define REG_B 100`, `#define REG_C 0x100000000` and `// #define REG_D 0x5`
and the configuration file made of the line `REG_B=BEE`, with a tokenizer
that splits these lines at their blanks, the program started with `-config`
prints exactly `BEE=$((0x64))` and a newline; started without arguments on
the same header it prints exactly `REG_A=$((0x1000))` and `REG_B=$((0x64))`,
each followed by a newline, in that order. -/
theorem C16_end_to_end (parse : CStr → List String) (fs : String → Option CStr)
    (hA : parse "#define REG_A 0x1000\n".data = ["#define", "REG_A", "0x1000"])
    (hB : parse "#define REG_B 100\n".data = ["#define", "REG_B", "100"])
    (hC : parse "#define REG_C 0x100000000\n".data = ["#define", "REG_C", "0x100000000"])
    (hT : parse "REG_B BEE\n".data = ["REG_B", "BEE"])
    (hheader : fs "fpga_reg.h" = some
      ("#define REG_A 0x1000\n#define REG_B 100\n#define REG_C 0x100000000\n" ++
        "// #define REG_D 0x5\n").data)
    (hconfig : fs "regs.cfg" = some "REG_B=BEE\n".data) :
    main parse fs ["-config", "regs.cfg"] = .ok ["BEE=$((0x64))\n"] ∧
    String.join ["BEE=$((0x64))\n"] = "BEE=$((0x64))\n" ∧
    main parse fs [] = .ok ["REG_A=$((0x1000))\n", "REG_B=$((0x64))\n"] ∧
    String.join ["REG_A=$((0x1000))\n", "REG_B=$((0x64))\n"]
      = "REG_A=$((0x1000))\nREG_B=$((0x64))\n" := by
  have hlines : file_lines
      ("#define REG_A 0x1000\n#define REG_B 100\n#define REG_C 0x100000000\n" ++
        "// #define REG_D 0x5\n").data
      = ["#define REG_A 0x1000\n".data, "#define REG_B 100\n".data,
          "#define REG_C 0x100000000\n".data, "// #define REG_D 0x5\n".data] := by decide
  have h1 : ∀ T, read_file_line parse T "#define REG_A 0x1000\n".data = T.assign "REG_A" 4096 :=
    fun T => read_file_line_accepts parse T _ "REG_A" "0x1000" ⟨by decide, by decide, hA⟩
      (by decide)
  have h2 : ∀ T, read_file_line parse T "#define REG_B 100\n".data = T.assign "REG_B" 100 :=
    fun T => read_file_line_accepts parse T _ "REG_B" "100" ⟨by decide, by decide, hB⟩
      (by decide)
  have h3 : ∀ T, read_file_line parse T "#define REG_C 0x100000000\n".data = T :=
    fun T => read_file_line_oversized parse T _ "REG_C" "0x100000000"
      ⟨by decide, by decide, hC⟩ (by decide)
  have h4 : ∀ T, read_file_line parse T "// #define REG_D 0x5\n".data = T :=
    fun T => read_file_line_skipped parse T _ (Or.inr (by decide))
  have hsym : read_file_lines parse []
      ["#define REG_A 0x1000\n".data, "#define REG_B 100\n".data,
        "#define REG_C 0x100000000\n".data, "// #define REG_D 0x5\n".data]
      = [("REG_A", 4096), ("REG_B", 100)] := by
    simp only [read_file_lines, List.foldl, h1, h2, h3, h4]
    decide
  have hread : read_file parse fs "fpga_reg.h" [] = .ok [("REG_A", 4096), ("REG_B", 100)] := by
    rw [read_file_open parse fs _ _ _ hheader, hlines, hsym]
  have hcl : read_config_line parse [] "REG_B=BEE\n".data = some [("REG_B", "BEE")] := by
    rw [read_config_line_tokens parse [] _ (by decide) (by decide)]
    have : skip_blanks (replace_first_eq "REG_B=BEE\n".data) = "REG_B BEE\n".data := by decide
    rw [this, hT]
    decide
  have hcfg : read_config_file parse fs "regs.cfg" [] = .ok [("REG_B", "BEE")] := by
    have hl : file_lines "REG_B=BEE\n".data = ["REG_B=BEE\n".data] := by decide
    rw [read_config_file_open parse fs _ _ _ hconfig, hl]
    simp only [read_config_lines, hcl]
  refine ⟨?_, by decide, ?_, by decide⟩
  · have hp : parse_command_line ["-config", "regs.cfg"] Globals.init
        = .ok (Globals.mk "fpga_reg.h" "regs.cfg" [] []) := rfl
    have hne : ("regs.cfg" : String) ≠ "" := by decide
    simp only [main, hp, run, hne, ne_eq, not_false_eq_true, if_true, hcfg, hread]
    decide
  · have hp : parse_command_line [] Globals.init
        = .ok (Globals.mk "fpga_reg.h" "" [] []) := rfl
    simp only [main, hp, run, ne_eq, not_true_eq_false, if_false, hread]
    decide

/-- C16, with the tokenizer of the specification and a file system that
holds the two files. -/
theorem C16_end_to_end_witness :
    main CTokenizer.parse
      (fun fn => if fn = "regs.cfg" then some "REG_B=BEE\n".data else
        if fn = "fpga_reg.h" then some
          ("#define REG_A 0x1000\n#define REG_B 100\n#define REG_C 0x100000000\n" ++
            "// #define REG_D 0x5\n").data
        else none)
      ["-config", "regs.cfg"] = .ok ["BEE=$((0x64))\n"] :=
  (C16_end_to_end CTokenizer.parse _ (by decide) (by decide) (by decide) (by decide)
    (by decide) (by decide)).1

/-! ## Order of the header lines -/

theorem str_lt_of_not {a b : String} (h : str_lt a b = false) (hne : a ≠ b) :
    str_lt b a = true := by
  cases hb : str_lt b a with
  | true => rfl
  | false => exact absurd (str_lt_total h hb) hne

theorem StdMap.assign_comm {V : Type} (m : StdMap V) (k1 k2 : String) (v1 v2 : V)
    (hne : k1 ≠ k2) :
    (m.assign k1 v1).assign k2 v2 = (m.assign k2 v2).assign k1 v1 := by
  induction m with
  | nil =>
    cases h12 : str_lt k1 k2 with
    | true => simp [StdMap.assign, h12, str_lt_asymm h12]
    | false =>
      have h21 := str_lt_of_not h12 hne
      simp [StdMap.assign, h12, h21]
  | cons e rest ih =>
    obtain ⟨h, hv⟩ := e
    cases a1 : str_lt h k1 with
    | true =>
      cases a2 : str_lt h k2 with
      | true => simp [StdMap.assign, a1, a2, ih]
      | false =>
        cases b2 : str_lt k2 h with
        | true =>
          have c : str_lt k2 k1 = true := str_lt_trans b2 a1
          simp [StdMap.assign, a1, a2, b2, c]
        | false =>
          have e2 : k2 = h := str_lt_total b2 a2
          subst e2
          simp [StdMap.assign, a1, a2]
    | false =>
      cases b1 : str_lt k1 h with
      | true =>
        cases a2 : str_lt h k2 with
        | true =>
          have c : str_lt k1 k2 = true := str_lt_trans b1 a2
          simp [StdMap.assign, a1, a2, b1, c]
        | false =>
          cases b2 : str_lt k2 h with
          | true =>
            cases h12 : str_lt k1 k2 with
            | true => simp [StdMap.assign, a1, a2, b1, b2, h12, str_lt_asymm h12]
            | false =>
              have h21 := str_lt_of_not h12 hne
              simp [StdMap.assign, a1, a2, b1, b2, h12, h21]
          | false =>
            have e2 : k2 = h := str_lt_total b2 a2
            subst e2
            simp [StdMap.assign, a1, b1, b2, str_lt_irrefl]
      | false =>
        have e1 : k1 = h := str_lt_total b1 a1
        subst e1
        cases a2 : str_lt k1 k2 with
        | true => simp [StdMap.assign, a2, str_lt_irrefl]
        | false =>
          have b2 := str_lt_of_not a2 hne
          simp [StdMap.assign, a2, b2, str_lt_irrefl]

theorem read_file_line_accepted (parse : CStr → List String) (line : CStr) :
    (accepted_name parse line = none ∧ ∀ T, read_file_line parse T line = T) ∨
    (∃ N v, accepted_name parse line = some N ∧
      ∀ T, read_file_line parse T line = StdMap.assign T N v) := by
  by_cases h1 : at_end_of_line (skip_blanks line) = true
  · left
    exact ⟨by simp [accepted_name, h1], fun T => read_file_line_skipped parse T line (Or.inl h1)⟩
  by_cases h2 : at_comment (skip_blanks line) = true
  · left
    exact ⟨by simp [accepted_name, h2], fun T => read_file_line_skipped parse T line (Or.inr h2)⟩
  have h1f : at_end_of_line (skip_blanks line) = false := by simpa using h1
  have h2f : at_comment (skip_blanks line) = false := by simpa using h2
  by_cases h3 : ∃ N L, parse (skip_blanks line) = ["#define", N, L]
  · obtain ⟨N, L, h3⟩ := h3
    have hrec : Recognized parse line N L := ⟨h1f, h2f, h3⟩
    by_cases h4 : strtoull L.data ≤ 0xFFFFFFFF
    · right
      refine ⟨N, strtoull L.data, ?_, fun T => read_file_line_accepts parse T line N L hrec h4⟩
      simp [accepted_name, h1f, h2f, h3, h4]
    · left
      refine ⟨?_, fun T => read_file_line_oversized parse T line N L hrec (by omega)⟩
      simp [accepted_name, h1f, h2f, h3, h4]
  · left
    constructor
    · unfold accepted_name
      simp only [h1f, h2f, Bool.false_eq_true, or_self, if_false]
      generalize parse (skip_blanks line) = toks at h3
      rcases toks with _ | ⟨t0, _ | ⟨t1, _ | ⟨t2, _ | ⟨t3, r⟩⟩⟩⟩
      · rfl
      · rfl
      · rfl
      · by_cases ht : t0 = "#define"
        · subst ht
          exact absurd ⟨t1, t2, rfl⟩ h3
        · simp [ht]
      · rfl
    · intro T
      rcases read_file_line_cases parse T line with h | ⟨N, L, hrec, _, _⟩
      · exact h
      · exact absurd ⟨N, L, hrec.2.2⟩ h3

theorem nodup_filterMap_eq {α β : Type} (f : α → Option β) (l : List α)
    (hd : (l.filterMap f).Nodup) (x y : α) (hx : x ∈ l) (hy : y ∈ l) (n : β)
    (hfx : f x = some n) (hfy : f y = some n) : x = y := by
  induction l with
  | nil => cases hx
  | cons a rest ih =>
    rw [List.filterMap_cons] at hd
    rcases List.mem_cons.mp hx with hxa | hxr
    · rcases List.mem_cons.mp hy with hya | hyr
      · rw [hxa, hya]
      · subst hxa
        rw [hfx] at hd
        simp only at hd
        have hn : n ∈ rest.filterMap f := List.mem_filterMap.mpr ⟨y, hyr, hfy⟩
        exact absurd hn (List.nodup_cons.mp hd).1
    · rcases List.mem_cons.mp hy with hya | hyr
      · subst hya
        rw [hfy] at hd
        simp only at hd
        have hn : n ∈ rest.filterMap f := List.mem_filterMap.mpr ⟨x, hxr, hfx⟩
        exact absurd hn (List.nodup_cons.mp hd).1
      · apply ih _ hxr hyr
        cases hfa : f a with
        | none =>
          rw [hfa] at hd
          exact hd
        | some b =>
          rw [hfa] at hd
          exact (List.nodup_cons.mp hd).2

theorem read_file_lines_perm (parse : CStr → List String) (l1 l2 : List CStr)
    (hperm : l1.Perm l2) (hd : (l1.filterMap (accepted_name parse)).Nodup) (T : StdMap Nat) :
    read_file_lines parse T l1 = read_file_lines parse T l2 := by
  unfold read_file_lines
  apply List.Perm.foldl_eq' hperm
  intro x hx y hy z
  rcases read_file_line_accepted parse x with ⟨_, hx0⟩ | ⟨N1, v1, hn1, hx1⟩
  · rw [hx0, hx0]
  · rcases read_file_line_accepted parse y with ⟨_, hy0⟩ | ⟨N2, v2, hn2, hy1⟩
    · rw [hy0, hy0]
    · by_cases hxy : x = y
      · rw [hxy]
      · have hne : N1 ≠ N2 := by
          intro e
          subst e
          exact hxy (nodup_filterMap_eq _ l1 hd x y hx hy N1 hn1 hn2)
        rw [hx1, hy1, hy1, hx1]
        exact StdMap.assign_comm z N1 N2 v1 v2 hne

/-- C17: when the line sequences of two header contents are permutations of
each other and no two lines that `read_file` accepts store the same name,
`read_file` produces the same symbol table from both, and with the same
command line and the same configuration file the program prints the same
output, or stops the same way. -/
theorem C17_line_order_irrelevant (parse : CStr → List String) (c1 c2 : CStr)
    (hperm : (file_lines c1).Perm (file_lines c2))
    (hd : ((file_lines c1).filterMap (accepted_name parse)).Nodup) :
    (∀ T : StdMap Nat,
      read_file_lines parse T (file_lines c1) = read_file_lines parse T (file_lines c2)) ∧
    (∀ (fs1 fs2 : String → Option CStr) (fn : String) (T : StdMap Nat),
      fs1 fn = some c1 → fs2 fn = some c2 →
      read_file parse fs1 fn T = read_file parse fs2 fn T) ∧
    (∀ (fs1 fs2 : String → Option CStr) (g : Globals),
      fs1 g.filename = some c1 → fs2 g.filename = some c2 →
      fs1 g.config_file = fs2 g.config_file → run parse fs1 g = run parse fs2 g) ∧
    (∀ (fs1 fs2 : String → Option CStr) (argv : List String),
      (∀ g, parse_command_line argv Globals.init = .ok g →
        fs1 g.filename = some c1 ∧ fs2 g.filename = some c2 ∧
        fs1 g.config_file = fs2 g.config_file) →
      main parse fs1 argv = main parse fs2 argv) := by
  have htab := read_file_lines_perm parse _ _ hperm hd
  have hread : ∀ (fs1 fs2 : String → Option CStr) (fn : String) (T : StdMap Nat),
      fs1 fn = some c1 → fs2 fn = some c2 →
      read_file parse fs1 fn T = read_file parse fs2 fn T := by
    intro fs1 fs2 fn T h1 h2
    rw [read_file_open parse fs1 fn T c1 h1, read_file_open parse fs2 fn T c2 h2, htab T]
  have hrun : ∀ (fs1 fs2 : String → Option CStr) (g : Globals),
      fs1 g.filename = some c1 → fs2 g.filename = some c2 →
      fs1 g.config_file = fs2 g.config_file → run parse fs1 g = run parse fs2 g := by
    intro fs1 fs2 g h1 h2 hc
    have hcfg : read_config_file parse fs1 g.config_file g.translate
        = read_config_file parse fs2 g.config_file g.translate := by
      simp only [read_config_file, hc]
    simp only [run, hcfg, hread fs1 fs2 g.filename g.symbol h1 h2]
  refine ⟨htab, hread, hrun, ?_⟩
  intro fs1 fs2 argv h
  unfold main
  cases hp : parse_command_line argv Globals.init with
  | ok g =>
    obtain ⟨h1, h2, hc⟩ := h g hp
    exact hrun fs1 fs2 g h1 h2 hc
  | exit1 e => rfl
  | undefined => rfl

/-- C17, at the header of the specification and the same lines in reverse
order. -/
theorem C17_line_order_irrelevant_witness :
    read_file_lines CTokenizer.parse []
        (file_lines "#define REG_A 0x1000\n#define REG_B 100\n// comment\n".data)
      = read_file_lines CTokenizer.parse []
        (file_lines "// comment\n#define REG_B 100\n#define REG_A 0x1000\n".data) :=
  (C17_line_order_irrelevant CTokenizer.parse
    "#define REG_A 0x1000\n#define REG_B 100\n// comment\n".data
    "// comment\n#define REG_B 100\n#define REG_A 0x1000\n".data
    (by
      have h1 : file_lines "#define REG_A 0x1000\n#define REG_B 100\n// comment\n".data
          = ["#define REG_A 0x1000\n".data, "#define REG_B 100\n".data, "// comment\n".data] := by
        decide
      have h2 : file_lines "// comment\n#define REG_B 100\n#define REG_A 0x1000\n".data
          = ["// comment\n".data, "#define REG_B 100\n".data, "#define REG_A 0x1000\n".data] := by
        decide
      rw [h1, h2]
      exact (List.Perm.swap _ _ _).trans
        ((List.Perm.cons _ (List.Perm.swap _ _ _)).trans (List.Perm.swap _ _ _)))
    (by decide)).1 []

/-! ## Oversized literals -/

theorem saturate_large (v : Nat) (hv : 2 ^ 32 ≤ v) :
    2 ^ 32 ≤ (if ULLONG_MAX < v then ULLONG_MAX else v) ∧
    (if ULLONG_MAX < v then ULLONG_MAX else v) = min v (2 ^ 64 - 1) := by
  unfold ULLONG_MAX
  norm_num at hv ⊢
  by_cases h : 18446744073709551615 < v
  · simp only [h, if_true]
    omega
  · simp only [h, if_false]
    omega

/-- C18 as stated fails for a decimal digit string that begins with `0`: the
digits of `04294967296` denote 2^32 in base 10, but the text is read as an
octal number that ends before the `9`, and the line stores `N` with the
address 34. -/
theorem C18_leading_zero_counterexample :
    (∀ c ∈ "04294967296".data, is_digit_of 10 c = true) ∧
    digits_value 10 "04294967296".data = 2 ^ 32 ∧
    Recognized CTokenizer.parse "#define N 04294967296\n".data "N" "04294967296" ∧
    strtoull "04294967296".data = 34 ∧
    read_file_line CTokenizer.parse [] "#define N 04294967296\n".data = [("N", 34)] :=
  ⟨by decide, by decide, ⟨by decide, by decide, by decide⟩, by decide, by decide⟩

/-- C18, amended: a recognized define line whose third token is a string of
decimal digits that does not begin with `0`, or `0x` or `0X` followed by a
string of hexadecimal digits, of any length and with a mathematical value of
at least 2^32, leaves the symbol table unchanged: the conversion gives the
value itself below 2^64 and saturates to 2^64-1 from there on, never a value
reduced modulo 2^32 or 2^64, and the upper 32 bits of the result are not
zero. -/
theorem C18_oversized_literal_dropped (parse : CStr → List String) (T : StdMap Nat)
    (line : CStr) (N L : String) (ds : List Char) (value : Nat)
    (hrec : Recognized parse line N L)
    (hform :
      (L.data = ds ∧ (∀ c ∈ ds, is_digit_of 10 c = true) ∧
        ds.head? ≠ some (Char.ofNat 48) ∧ value = digits_value 10 ds) ∨
      (∃ x, (x = Char.ofNat 120 ∨ x = Char.ofNat 88) ∧ L.data = Char.ofNat 48 :: x :: ds ∧
        (∀ c ∈ ds, is_digit_of 16 c = true) ∧ value = digits_value 16 ds))
    (hbig : 2 ^ 32 ≤ value) :
    read_file_line parse T line = T ∧
    strtoull L.data = min value (2 ^ 64 - 1) ∧
    2 ^ 32 ≤ strtoull L.data := by
  have hne : ∀ base, value = digits_value base ds → ds ≠ [] := by
    intro base h e
    subst e
    rw [h] at hbig
    simp [digits_value] at hbig
  have hkey : strtoull L.data = min value (2 ^ 64 - 1) ∧ 2 ^ 32 ≤ strtoull L.data := by
    rcases hform with ⟨hL, hall, hlead, hval⟩ | ⟨x, hx, hL, hall, hval⟩
    · rw [hL, strtoull_decimal ds hall (hne 10 hval) hlead, ← hval]
      exact ⟨(saturate_large _ hbig).2, (saturate_large _ hbig).1⟩
    · rw [hL, strtoull_hex x hx ds hall (hne 16 hval), ← hval]
      exact ⟨(saturate_large _ hbig).2, (saturate_large _ hbig).1⟩
  refine ⟨?_, hkey⟩
  apply read_file_line_oversized parse T line N L hrec
  have := hkey.2
  norm_num at this ⊢
  omega

/-- C18 amended, at a decimal literal above 2^64 and at the hexadecimal
literal of 2^32. -/
theorem C18_oversized_literal_dropped_witness :
    read_file_line CTokenizer.parse [("REG_A", 1)]
      "#define BIG 99999999999999999999999\n".data = [("REG_A", 1)] ∧
    strtoull "99999999999999999999999".data = 2 ^ 64 - 1 ∧
    read_file_line CTokenizer.parse [("REG_A", 1)]
      "#define REG_C 0x100000000\n".data = [("REG_A", 1)] :=
  ⟨(C18_oversized_literal_dropped CTokenizer.parse [("REG_A", 1)]
      "#define BIG 99999999999999999999999\n".data "BIG" "99999999999999999999999"
      "99999999999999999999999".data 99999999999999999999999 ⟨by decide, by decide, by decide⟩
      (Or.inl ⟨rfl, by decide, by decide, by decide⟩) (by decide)).1,
    by decide,
    (C18_oversized_literal_dropped CTokenizer.parse [("REG_A", 1)]
      "#define REG_C 0x100000000\n".data "REG_C" "0x100000000" "100000000".data 4294967296
      ⟨by decide, by decide, by decide⟩
      (Or.inr ⟨Char.ofNat 120, Or.inl rfl, by decide, by decide, by decide⟩) (by decide)).1⟩

/-! ## Aliases and the order of the output -/

/-- C19: with a configuration file the lines follow the order of the
register names, not of the printed aliases. For the symbols `A` and `B` with
the translations `A -> Y` and `B -> X` the lines are `Y=...` and then
`X=...`, although `X` is less than `Y`; and when `A` and `B` share the alias
`Z`, the name `Z` is printed on two lines. The program reaches both states
from a header that defines `A` and `B` and the configuration files `A=Y`,
`B=X` and `A=Z`, `B=Z`. -/
theorem C19_output_in_register_order :
    display_output (Globals.mk "fpga_reg.h" "regs.cfg" [("A", 1), ("B", 2)]
      [("A", "Y"), ("B", "X")]) = ["Y=$((0x1))\n", "X=$((0x2))\n"] ∧
    str_lt "A" "B" = true ∧ str_lt "X" "Y" = true ∧ str_lt "Y" "X" = false ∧
    display_output (Globals.mk "fpga_reg.h" "regs.cfg" [("A", 1), ("B", 2)]
      [("A", "Z"), ("B", "Z")]) = ["Z=$((0x1))\n", "Z=$((0x2))\n"] ∧
    main CTokenizer.parse
      (fun fn => if fn = "regs.cfg" then some "A=Y\nB=X\n".data
        else some "#define B 2\n#define A 1\n".data)
      ["-config", "regs.cfg"] = .ok ["Y=$((0x1))\n", "X=$((0x2))\n"] ∧
    main CTokenizer.parse
      (fun fn => if fn = "regs.cfg" then some "A=Z\nB=Z\n".data
        else some "#define B 2\n#define A 1\n".data)
      ["-config", "regs.cfg"] = .ok ["Z=$((0x1))\n", "Z=$((0x2))\n"] :=
  ⟨by decide, by decide, by decide, by decide, by decide, by decide, by decide⟩

/-! ## A literal without a number -/

theorem read_file_line_keeps (parse : CStr → List String) (T : StdMap Nat) (line : CStr)
    (N : String) (v : Nat) (hmem : (N, v) ∈ T) (hno : accepted_name parse line ≠ some N) :
    (N, v) ∈ read_file_line parse T line := by
  rcases read_file_line_accepted parse line with ⟨_, h0⟩ | ⟨N2, v2, hn, h1⟩
  · rwa [h0]
  · rw [h1]
    apply StdMap.mem_assign_of_ne T N2 v2 (N, v) hmem
    intro e
    apply hno
    rw [hn]
    exact congrArg some e.symm

theorem read_file_lines_keeps (parse : CStr → List String) (lines : List CStr)
    (T : StdMap Nat) (N : String) (v : Nat) (hmem : (N, v) ∈ T)
    (hno : ∀ l ∈ lines, accepted_name parse l ≠ some N) :
    (N, v) ∈ read_file_lines parse T lines := by
  induction lines generalizing T with
  | nil => simpa [read_file_lines] using hmem
  | cons l rest ih =>
    have h1 := read_file_line_keeps parse T l N v hmem (hno l (List.mem_cons_self _ _))
    have h2 := ih (read_file_line parse T l) h1 (fun l2 hl2 => hno l2 (List.mem_cons_of_mem _ hl2))
    simpa [read_file_lines] using h2

/-- C10 as stated fails for a run: in the header `#define N notanumber`,
`#define N 5` the first line is recognized, its literal has no leading
number and it stores `N` with the address 0, but the second line overwrites
the entry, and the run without a configuration file prints `N=$((0x5))` and
no line `N=$((0x0))`. -/
theorem C10_later_define_counterexample :
    ("#define N notanumber\n".data ∈ file_lines "#define N notanumber\n#define N 5\n".data ∧
      Recognized CTokenizer.parse "#define N notanumber\n".data "N" "notanumber" ∧
      NoLeadingNumber "notanumber") ∧
    read_file_line CTokenizer.parse [] "#define N notanumber\n".data = [("N", 0)] ∧
    run CTokenizer.parse (fun _ => some "#define N notanumber\n#define N 5\n".data)
      Globals.init = .ok ["N=$((0x5))\n"] ∧
    "N=$((0x0))\n" ∉ ["N=$((0x5))\n"] :=
  ⟨⟨by decide, ⟨by decide, by decide, by decide⟩, by unfold NoLeadingNumber; decide⟩,
    by decide, by decide, by decide⟩

/-- C10, amended: a header line that tokenizes to `#define`, `N`, `L`, where
`L` has no leading number under the base-0 rules of C, is not skipped: `L`
parses to 0 and the line performs `symbol[N] = 0`, so the table after the
line maps `N` to 0 and `display_output` without a configuration file prints
`N=$((0x0))` for it. A run without a configuration file prints the line
`N=$((0x0))` when no later line of the header is an accepted `#define` of
`N`. -/
theorem C10_unparseable_literal_is_zero (parse : CStr → List String) (T : StdMap Nat)
    (line : CStr) (N L : String) (hrec : Recognized parse line N L)
    (hL : NoLeadingNumber L) :
    strtoull L.data = 0 ∧
    read_file_line parse T line = T.assign N 0 ∧
    (read_file_line parse T line).find N = some 0 ∧
    (N, 0) ∈ read_file_line parse T line ∧
    printf_symbol N 0 = N ++ "=$((0x0))\n" ∧
    (∀ (g : Globals), g.config_file = "" → g.symbol = read_file_line parse T line →
      N ++ "=$((0x0))\n" ∈ display_output g) ∧
    (∀ (fs : String → Option CStr) (fn : String) (content : CStr) (before after : List CStr),
      fs fn = some content → file_lines content = before ++ line :: after →
      (∀ l ∈ after, accepted_name parse l ≠ some N) →
      ∃ out, run parse fs { Globals.init with filename := fn } = .ok out ∧
        N ++ "=$((0x0))\n" ∈ out) := by
  have h0 : strtoull L.data = 0 := strtoull_no_number L hL
  have hstepT : ∀ T2 : StdMap Nat, read_file_line parse T2 line = T2.assign N 0 := by
    intro T2
    have := read_file_line_accepts parse T2 line N L hrec (by rw [h0]; decide)
    rwa [h0] at this
  have hstep := hstepT T
  have hprint : printf_symbol N 0 = N ++ "=$((0x0))\n" := by
    have hf : fmt_lX 0 = "0" := by decide
    unfold printf_symbol
    rw [hf, String.append_assoc, String.append_assoc]
    rfl
  refine ⟨h0, hstep, ?_, ?_, hprint, ?_, ?_⟩
  · rw [hstep]; exact StdMap.find_assign_same T N 0
  · rw [hstep]; exact StdMap.mem_assign T N 0
  · intro g hc hs
    rw [display_output_no_config g hc, hs, hstep, ← hprint]
    exact List.mem_map.mpr ⟨(N, 0), StdMap.mem_assign T N 0, rfl⟩
  · intro fs fn content before after hf hlines hafter
    refine ⟨_, run_no_config parse fs { Globals.init with filename := fn } content rfl hf, ?_⟩
    rw [hlines, ← hprint]
    refine List.mem_map.mpr ⟨(N, 0), ?_, rfl⟩
    have hsplit : read_file_lines parse Globals.init.symbol (before ++ line :: after)
        = read_file_lines parse
            (read_file_line parse (read_file_lines parse Globals.init.symbol before) line)
            after := by
      simp [read_file_lines, List.foldl_append]
    change (N, 0) ∈ read_file_lines parse Globals.init.symbol (before ++ line :: after)
    rw [hsplit]
    apply read_file_lines_keeps parse after _ N 0 _ hafter
    rw [hstepT]
    exact StdMap.mem_assign _ N 0

/-- C10 amended, at the line `#define REG_X notanumber` between a define of
`REG_A` and an oversized define of `REG_X`, which does not store it. -/
theorem C10_unparseable_literal_is_zero_witness :
    Recognized CTokenizer.parse "#define REG_X notanumber\n".data "REG_X" "notanumber" ∧
    NoLeadingNumber "notanumber" ∧
    read_file_line CTokenizer.parse [] "#define REG_X notanumber\n".data = [("REG_X", 0)] ∧
    (∃ out, run CTokenizer.parse
        (fun _ => some
          "#define REG_A 1\n#define REG_X notanumber\n#define REG_X 0x100000000\n".data)
        { Globals.init with filename := "regs.h" } = .ok out ∧
      "REG_X" ++ "=$((0x0))\n" ∈ out) :=
  ⟨⟨by decide, by decide, by decide⟩, by unfold NoLeadingNumber; decide,
    (C10_unparseable_literal_is_zero CTokenizer.parse [] "#define REG_X notanumber\n".data
      "REG_X" "notanumber" ⟨by decide, by decide, by decide⟩
      (by unfold NoLeadingNumber; decide)).2.1.trans (by decide),
    (C10_unparseable_literal_is_zero CTokenizer.parse [] "#define REG_X notanumber\n".data
      "REG_X" "notanumber" ⟨by decide, by decide, by decide⟩
      (by unfold NoLeadingNumber; decide)).2.2.2.2.2.2
      (fun _ => some
        "#define REG_A 1\n#define REG_X notanumber\n#define REG_X 0x100000000\n".data)
      "regs.h" _ ["#define REG_A 1\n".data] ["#define REG_X 0x100000000\n".data]
      rfl (by decide) (by decide)⟩

end Fpgaregs
